import Mathlib

/-!
SimpleHttpTester: a shallow embedding of `main.go`.

Go strings are modelled as lists of Unicode code points (`GoString`): the
texts are taken to be valid UTF-8, for which the byte-wise search and slicing
of Go agree with the search and slicing by code points used here.  Errors are
modelled as their message text, the `nil` error as `none`.  The functions of
the Go standard library that the program calls are modelled first, then the
functions of `main.go`; the network, the clock and the file system are
parameters of the model (`World`), and what a function does besides returning
is recorded in a trace next to its result.
-/

namespace SimpleHttpTester

/-- A Go string, as the sequence of its code points. -/
abbrev GoString := List Char

deriving instance DecidableEq for Except

/-! ## The `strings` package -/

/-- Go `strings.HasPrefix(s, pre)`. -/
def HasPrefix (s pre : GoString) : Bool := pre.isPrefixOf s

/-- Go `strings.Index(s, substr)`: position of the first occurrence of
`substr` in `s`; `none` stands for Go's `-1`. -/
def Index : GoString → GoString → Option Nat
  | [], substr => if substr.isPrefixOf [] then some 0 else none
  | c :: t, substr =>
    if substr.isPrefixOf (c :: t) then some 0
    else (Index t substr).map (· + 1)

/-- The loop of Go `strings.Count(s, substr)` for a non-empty `substr`:
`fuel` bounds the number of iterations (every iteration consumes at least one
character of `s`). -/
def countLoop (substr : GoString) : Nat → GoString → Nat
  | 0, _ => 0
  | fuel + 1, s =>
    match Index s substr with
    | none => 0
    | some i => countLoop substr fuel (s.drop (i + substr.length)) + 1

/-- Go `strings.Count(s, substr)`: number of non-overlapping occurrences; for
an empty `substr` it is the number of code points of `s` plus one. -/
def Count (s substr : GoString) : Nat :=
  if substr = [] then s.length + 1 else countLoop substr s.length s

/-- The replacement loop of Go `strings.Replace` for a non-empty `old`: the
first argument is the number of replacements still to make, the second the
part of `s` from `start` on. -/
def replaceLoop (old new : GoString) : Nat → GoString → GoString
  | 0, s => s
  | k + 1, s =>
    match Index s old with
    | none => s
    | some j => s.take j ++ new ++ replaceLoop old new k (s.drop (j + old.length))

/-- The replacement loop of Go `strings.Replace` for an empty `old`, from its
second iteration on: one code point is copied, then `new` is written. -/
def replaceEmptyLoop (new : GoString) : Nat → GoString → GoString
  | 0, s => s
  | _ + 1, [] => []
  | k + 1, c :: t => c :: (new ++ replaceEmptyLoop new k t)

/-- Go `strings.Replace(s, old, new, n)`: the first `n` non-overlapping
occurrences of `old` replaced by `new`; all of them when `n < 0`. -/
def Replace (s old new : GoString) (n : Int) : GoString :=
  if old = new ∨ n = 0 then s
  else
    let m := Count s old
    if m = 0 then s
    else
      let k : Nat := if n < 0 ∨ (m : Int) < n then m else n.toNat
      if old = [] then new ++ replaceEmptyLoop new (k - 1) s
      else replaceLoop old new k s

/-- Go `strings.ReplaceAll(s, old, new)`, which is `Replace(s, old, new, -1)`. -/
def ReplaceAll (s old new : GoString) : GoString := Replace s old new (-1)

/-- Go `strings.Contains(s, substr)`. -/
def Contains (s substr : GoString) : Bool := (Index s substr).isSome

/-- Go `unicode.IsSpace`: the code points with the White_Space property. -/
def isSpace (c : Char) : Bool :=
  let n := c.toNat
  n = 0x20 || (0x09 ≤ n && n ≤ 0x0D) || n = 0x85 || n = 0xA0 || n = 0x1680 ||
  (0x2000 ≤ n && n ≤ 0x200A) || n = 0x2028 || n = 0x2029 || n = 0x202F ||
  n = 0x205F || n = 0x3000

/-- Go `strings.TrimSpace(s)`: leading and trailing white space removed. -/
def TrimSpace (s : GoString) : GoString :=
  ((s.dropWhile isSpace).reverse.dropWhile isSpace).reverse

/-- Go `unicode.ToLower` as far as the program can observe it: the program only
compares the lowered text with the ASCII literal `false`, and the only code
points outside `A`-`Z` that Go lowers to an ASCII letter are U+212A (to `k`)
and U+0130 (to `i`); every other code point outside `A`-`Z` is lowered to a
code point outside ASCII or left unchanged, which is modelled as unchanged. -/
def toLowerRune (c : Char) : Char :=
  if 'A' ≤ c ∧ c ≤ 'Z' then Char.ofNat (c.toNat + 32)
  else if c.toNat = 0x212A then 'k'
  else if c.toNat = 0x0130 then 'i'
  else c

/-- Go `strings.ToLower(s)`. -/
def ToLower (s : GoString) : GoString := s.map toLowerRune

/-! ## The `net/url` package

`url.Parse` belongs to the Go standard library, not to the program.  The
program is embedded over an arbitrary parser (the field `urlParse` of `World`
below), so that what is proved of it holds whatever `url.Parse` does; the
reference model `urlParse` that follows is used for concrete inputs.  It
follows the structure of the library function (`Parse`, `parse`, `getScheme`,
`parseAuthority`, `parseHost`) and keeps the components in their raw,
undecoded form.  It departs from the library in three ways, none of which a
universal statement below depends on: a text with a percent sign in its
authority, path or fragment is outside the model and is answered with an
error, where the library decodes it; the error texts leave out the quoted URL
and the quoted character that the library prints; and the host is checked
character by character only, so that a host the library refuses for its form
as an IP literal (a bare `::1`, brackets around something that is no IPv6
address) is accepted. -/

/-- The fields of Go `url.URL` the model keeps (`User` is the raw userinfo). -/
structure URL where
  Scheme : GoString
  Opaque : GoString
  User : Option GoString
  Host : GoString
  Path : GoString
  RawQuery : GoString
  Fragment : GoString
deriving DecidableEq, Repr

/-- The empty `url.URL` value. -/
def URL.zero : URL :=
  { Scheme := [], Opaque := [], User := none, Host := [], Path := [], RawQuery := [],
    Fragment := [] }

/-- Go `strings.Cut(s, sep)` for a one-character separator: the text before and
after the first `sep`, and whether `sep` was found. -/
def cutChar (s : GoString) (sep : Char) : GoString × GoString × Bool :=
  match Index s [sep] with
  | none => (s, [], false)
  | some i => (s.take i, s.drop (i + 1), true)

/-- Go `strings.LastIndex(s, [c])`; `none` stands for `-1`. -/
def lastIndexChar (s : GoString) (c : Char) : Option Nat :=
  match Index s.reverse [c] with
  | none => none
  | some i => some (s.length - 1 - i)

/-- Go `url.stringContainsCTLByte`. -/
def stringContainsCTLByte (s : GoString) : Bool :=
  s.any (fun c => c.toNat < 0x20 || c.toNat = 0x7f)

/-- An ASCII letter. -/
def isAlpha (c : Char) : Bool := ('a' ≤ c && c ≤ 'z') || ('A' ≤ c && c ≤ 'Z')

/-- An ASCII digit. -/
def isDigit (c : Char) : Bool := '0' ≤ c && c ≤ '9'

/-- The loop of Go `url.getScheme`: `i` is the index of the character looked at,
`rest` the text from there on. -/
def getSchemeLoop (rawURL : GoString) : Nat → GoString → Except GoString (GoString × GoString)
  | _, [] => .ok ([], rawURL)
  | i, c :: rest =>
    if isAlpha c then getSchemeLoop rawURL (i + 1) rest
    else if isDigit c || c = '+' || c = '-' || c = '.' then
      if i = 0 then .ok ([], rawURL) else getSchemeLoop rawURL (i + 1) rest
    else if c = ':' then
      if i = 0 then .error "missing protocol scheme".toList
      else .ok (rawURL.take i, rawURL.drop (i + 1))
    else .ok ([], rawURL)

/-- Go `url.getScheme`. -/
def getScheme (rawURL : GoString) : Except GoString (GoString × GoString) :=
  getSchemeLoop rawURL 0 rawURL

/-- Go `url.validOptionalPort`. -/
def validOptionalPort (port : GoString) : Bool :=
  match port with
  | [] => true
  | c :: digits => c = ':' && digits.all isDigit

/-- Go `url.validUserinfo`. -/
def validUserinfo (s : GoString) : Bool :=
  s.all (fun r => isAlpha r || isDigit r || r ∈ "-._:~!$&()*+,;=%@".toList || r = '\'')

/-- Go `url.shouldEscape(c, encodeHost)` on an ASCII character. -/
def shouldEscapeHost (c : Char) : Bool :=
  !(isAlpha c || isDigit c || c ∈ "!$&()*+,;=:[]<>\"-_.~".toList || c = '\'')

/-- Go `url.unescape(host, encodeHost)` on a text without percent sign: the
text itself, unless it has an ASCII character a host cannot hold. -/
def checkHost (host : GoString) : Except GoString GoString :=
  if host.any (fun c => c = '%') then .error "percent sign in host: outside the model".toList
  else
    match host.find? (fun c => c.toNat < 0x80 && shouldEscapeHost c) with
    | some c => .error ("invalid character ".toList ++ [c] ++ " in host name".toList)
    | none => .ok host

/-- Go `url.parseHost`. -/
def parseHost (host : GoString) : Except GoString GoString :=
  if HasPrefix host "[".toList then
    match lastIndexChar host ']' with
    | none => .error "missing ] in host".toList
    | some i =>
      if !validOptionalPort (host.drop (i + 1)) then
        .error ("invalid port ".toList ++ host.drop (i + 1) ++ " after host".toList)
      else checkHost host
  else
    match lastIndexChar host ':' with
    | some i =>
      if !validOptionalPort (host.drop i) then
        .error ("invalid port ".toList ++ host.drop i ++ " after host".toList)
      else checkHost host
    | none => checkHost host

/-- Go `url.parseAuthority`: the raw userinfo (before the last `@`) and the host. -/
def parseAuthority (authority : GoString) : Except GoString (Option GoString × GoString) :=
  match lastIndexChar authority '@' with
  | none => (parseHost authority).map (fun host => (none, host))
  | some i =>
    match parseHost (authority.drop (i + 1)) with
    | .error e => .error e
    | .ok host =>
      let userinfo := authority.take i
      if !validUserinfo userinfo then .error "net/url: invalid userinfo".toList
      else if userinfo.any (fun c => c = '%') then
        .error "percent sign in userinfo: outside the model".toList
      else .ok (some userinfo, host)

/-- Go `url.parse(rawURL, false)`, without the fragment. -/
def parseNoFragment (rawURL : GoString) : Except GoString URL :=
  if stringContainsCTLByte rawURL then .error "net/url: invalid control character in URL".toList
  else if rawURL = "*".toList then .ok { URL.zero with Path := "*".toList }
  else
    match getScheme rawURL with
    | .error e => .error e
    | .ok (scheme, rest) =>
      let scheme := ToLower scheme
      let (rest, rawQuery) :=
        if rest.getLast? = some '?' ∧ Count rest "?".toList = 1 then (rest.dropLast, [])
        else ((cutChar rest '?').1, (cutChar rest '?').2.1)
      if !HasPrefix rest "/".toList ∧ scheme ≠ [] then
        .ok { URL.zero with Scheme := scheme, Opaque := rest, RawQuery := rawQuery }
      else if !HasPrefix rest "/".toList ∧ Contains (cutChar rest '/').1 ":".toList then
        .error "first path segment in URL cannot contain colon".toList
      else if (scheme ≠ [] ∨ !HasPrefix rest "///".toList) ∧ HasPrefix rest "//".toList then
        let authority := (cutChar (rest.drop 2) '/').1
        let path := (rest.drop 2).drop authority.length
        match parseAuthority authority with
        | .error e => .error e
        | .ok (user, host) =>
          if path.any (fun c => c = '%') then .error "percent sign in path: outside the model".toList
          else .ok { URL.zero with Scheme := scheme, User := user, Host := host, Path := path,
                                   RawQuery := rawQuery }
      else if rest.any (fun c => c = '%') then .error "percent sign in path: outside the model".toList
      else .ok { URL.zero with Scheme := scheme, Path := rest, RawQuery := rawQuery }

/-- Reference model of Go `url.Parse`: the fragment is cut off at the first
`#`, the rest goes through `parse`; the error text is that of `url.Error`
without the quoted URL. -/
def urlParse (rawURL : GoString) : Except GoString URL :=
  let (u, frag, _) := cutChar rawURL '#'
  match parseNoFragment u with
  | .error e => .error ("parse: ".toList ++ e)
  | .ok url =>
    if frag.any (fun c => c = '%') then .error "parse: percent sign in fragment: outside the model".toList
    else .ok { url with Fragment := frag }

/-! ## The `net/http`, `os` and `time` packages, as the program sees them -/

/-- Go `time.Duration`, in nanoseconds. -/
abbrev Duration := Int

/-- The `http.Client` built by the program: the `ServerName` of its TLS
configuration, whether it follows redirects, and its timeout. -/
structure Client where
  ServerName : GoString
  FollowRedirects : Bool
  Timeout : Duration
deriving DecidableEq, Repr

/-- The fields of `http.Request` the program sets: the URL is kept as the text
given to `http.NewRequest`, the header as a list of key-value pairs. -/
structure HttpRequest where
  Method : GoString
  URL : GoString
  Host : GoString
  Header : List (GoString × GoString)
deriving DecidableEq, Repr

/-- The parts of `http.Response` the program reads: the status line text, the
header block as `Header.Write` serialises it, and the body. -/
structure Response where
  Status : GoString
  Header : GoString
  Body : GoString
deriving DecidableEq, Repr

/-- What lies outside the program: the URL parser of the standard library, the
network answering `client.Do`, the clock (`time.Since(now)` after the
response) and the file system answering `os.OpenFile` (`none`: the file is
open; `some e`: the error text). -/
structure World where
  urlParse : GoString → Except GoString URL
  Do : Client → HttpRequest → Except GoString Response
  since : Duration
  OpenFile : GoString → Option GoString

/-- Go `http.removeEmptyPort`: a trailing colon without port is dropped. -/
def removeEmptyPort (host : GoString) : GoString :=
  let hasPort : Bool :=
    match lastIndexChar host ':', lastIndexChar host ']' with
    | some i, some j => j < i
    | some _, none => true
    | none, _ => false
  if hasPort ∧ host.getLast? = some ':' then host.dropLast else host

/-- Go `http.NewRequest(method, url, nil)` for a valid method: it fails exactly
when `url.Parse(url)` does, with that error; the new request has the host of
the parsed URL and an empty header. -/
def NewRequest (w : World) (method url : GoString) : Except GoString HttpRequest :=
  match w.urlParse url with
  | .error e => .error e
  | .ok u => .ok { Method := method, URL := url, Host := removeEmptyPort u.Host, Header := [] }

/-- Go `Header.Set(key, value)` on a canonical key. -/
def headerSet (h : List (GoString × GoString)) (key value : GoString) :
    List (GoString × GoString) :=
  h.filter (fun kv => kv.1 ≠ key) ++ [(key, value)]

/-! ## `main.go` -/

/-- Go `Config` (main.go lines 16-22). -/
structure Config where
  URL : GoString
  UserAgent : GoString
  Cookie : GoString
  HeadOutput : Bool
  BodyOutput : Bool
deriving DecidableEq, Repr

/-- Go `Request` (main.go lines 24-27).  `Conf` is a pointer in the source; the
program never writes through it after `ParseRequestConf` has returned, so a
request carries the value the pointer then refers to. -/
structure Request where
  IP : GoString
  Conf : Config
deriving DecidableEq, Repr

/-- Go `Result` (main.go lines 29-34); `Err = none` is the nil error. -/
structure Result where
  IP : GoString
  Status : GoString
  ReqTime : Duration
  Err : Option GoString
deriving DecidableEq, Repr

/-- What one run of `Request.Call` returns and does: the returned `Result`, the
client it built, the URL text it handed to `http.NewRequest`, the request it
handed to `client.Do`, the file names it handed to `os.OpenFile` (in order)
and the data it wrote to the files it could open. -/
structure CallTrace where
  res : Result
  client : Option Client
  newrequrl : Option GoString
  sent : Option HttpRequest
  opened : List GoString
  written : List (GoString × GoString)
deriving DecidableEq, Repr

/-- The default of `useragent` (main.go line 66). -/
def defaultUserAgent : GoString :=
  ("Mozilla/5.0 (Windows NT 10.0; WOW64) AppleWebKit/537.36 (KHTML, like Gecko) " ++
   "Chrome/78.0.3904.108 Safari/537.36").toList

/-- The body capture of `Request.Call` (main.go lines 94-103): `ip` is the
value of the variable `ip` when line 94 is reached, `t` what was done before. -/
def Call.bodyOutput (w : World) (rq : Request) (resp : Response) (ip : GoString)
    (t : CallTrace) : CallTrace :=
  if rq.Conf.BodyOutput then
    let name := "result/".toList ++ ip ++ "_body.txt".toList
    match w.OpenFile name with
    | some err => { t with res := { t.res with Err := some err }, opened := t.opened ++ [name] }
    | none => { t with opened := t.opened ++ [name], written := t.written ++ [(name, resp.Body)] }
  else t

/-- The header capture of `Request.Call` followed by the body capture (main.go
lines 83-103).  The assignment to `ip` at line 84 is inside the `if` of line
83: the body capture sees the replaced `ip` only when `HeadOutput` is set. -/
def Call.output (w : World) (rq : Request) (resp : Response) (ip : GoString)
    (t : CallTrace) : CallTrace :=
  if rq.Conf.HeadOutput then
    let ip := ReplaceAll ip ":".toList ".".toList
    let name := "result/".toList ++ ip ++ "_header.txt".toList
    match w.OpenFile name with
    | some err => { t with res := { t.res with Err := some err }, opened := t.opened ++ [name] }
    | none =>
      Call.bodyOutput w rq resp ip
        { t with opened := t.opened ++ [name],
                 written := t.written ++ [(name, resp.Status ++ "\n".toList ++ resp.Header)] }
  else Call.bodyOutput w rq resp ip t

/-- The fields `Call` sets on the new request (main.go lines 63-72): the `Host`,
the user agent, and the cookie when there is one. -/
def Call.setHeaders (rq : Request) (host : GoString) (req : HttpRequest) : HttpRequest :=
  let req := { req with Host := host }
  let useragent := if rq.Conf.UserAgent = [] then defaultUserAgent else rq.Conf.UserAgent
  let req := { req with Header := headerSet req.Header "User-Agent".toList useragent }
  let cookiestr := rq.Conf.Cookie
  if cookiestr ≠ [] then { req with Header := headerSet req.Header "Cookie".toList cookiestr }
  else req

/-- The variable `ip` of `Call` after line 48: the IP of the request, or the
host when the IP is empty. -/
def Call.ip (rq : Request) (host : GoString) : GoString :=
  if rq.IP = [] then host else rq.IP

/-- The client `Call` builds (main.go lines 51-57): the TLS server name is
`host`, `CheckRedirect` stops at the first response, the timeout is 5 seconds. -/
def Call.client (host : GoString) : Client :=
  { ServerName := host, FollowRedirects := false, Timeout := 5000000000 }

/-- Go `(rq *Request) Call()` (main.go lines 36-104). -/
def Call (w : World) (rq : Request) : CallTrace :=
  let res : Result := { IP := [], Status := [], ReqTime := 0, Err := none }
  let requrl := rq.Conf.URL
  match w.urlParse requrl with
  | .error err =>
    { res := { res with Err := some err }, client := none, newrequrl := none, sent := none,
      opened := [], written := [] }
  | .ok urlValue =>
    let host := urlValue.Host
    let ip := Call.ip rq host
    let res := { res with IP := ip }
    let newrequrl := Replace requrl host ip 1
    let client := Call.client host
    match NewRequest w "GET".toList newrequrl with
    | .error err =>
      { res := { res with Err := some (ReplaceAll err newrequrl requrl) }, client := some client,
        newrequrl := some newrequrl, sent := none, opened := [], written := [] }
    | .ok req =>
      let req := Call.setHeaders rq host req
      match w.Do client req with
      | .error err =>
        { res := { res with Err := some (ReplaceAll err newrequrl requrl) }, client := some client,
          newrequrl := some newrequrl, sent := some req, opened := [], written := [] }
      | .ok resp =>
        let res := { res with ReqTime := w.since, Status := resp.Status }
        Call.output w rq resp ip
          { res := res, client := some client, newrequrl := some newrequrl, sent := some req,
            opened := [], written := [] }

/-- Go `convToBool` (main.go lines 156-162). -/
def convToBool (val : GoString) : Bool :=
  let val := TrimSpace val
  if val = [] ∨ val = "0".toList ∨ ToLower val = "false".toList then false
  else true

/-- One iteration of the scanner loop of `ParseRequestConf` (main.go lines
174-190) on the line `text`: the state is the list of the IPs of the requests
appended so far and the configuration that `conf` points to. -/
def parseLine (st : List GoString × Config) (text : GoString) : List GoString × Config :=
  let (ips, conf) := st
  if HasPrefix text "url:".toList then (ips, { conf with URL := TrimSpace (text.drop 4) })
  else if HasPrefix text "user-agent:".toList then
    (ips, { conf with UserAgent := TrimSpace (text.drop 11) })
  else if HasPrefix text "header-output:".toList then
    (ips, { conf with HeadOutput := convToBool (text.drop 14) })
  else if HasPrefix text "body-output:".toList then
    (ips, { conf with BodyOutput := convToBool (text.drop 12) })
  else if HasPrefix text "cookie:".toList then (ips, { conf with Cookie := TrimSpace (text.drop 7) })
  else (ips ++ [TrimSpace text], conf)

/-- The zero value `&Config{}` (main.go line 166). -/
def Config.zero : Config :=
  { URL := [], UserAgent := [], Cookie := [], HeadOutput := false, BodyOutput := false }

/-- The requests of `ParseRequestConf` for the lines the scanner yields (main.go
lines 165-194).  Every request of the source holds the same pointer `conf`,
so after the loop each of them sees the configuration as the last line left
it; a request is appended for every line that is not an option line, and one
with an empty IP when there was none. -/
def parseLines (lines : List GoString) : List Request :=
  let (ips, conf) := lines.foldl parseLine ([], Config.zero)
  let ips := if ips.length = 0 then ips ++ [[]] else ips
  ips.map (fun ip => { IP := ip, Conf := conf })

/-- Go `ParseRequestConf` (main.go lines 164-197).  The argument is what
`os.Open` and the scanner give: an error text when `request.txt` cannot be
opened, else the lines read and the error of the scanner, if any. -/
def ParseRequestConf (file : Except GoString (List GoString × Option GoString)) :
    List Request × Option GoString :=
  match file with
  | .error err => ([], some err)
  | .ok (lines, scanErr) => (parseLines lines, scanErr)

/-- What one run of `RequestIP` returns and does: the returned error, the URL
text handed to `http.NewRequest`, the request handed to `client.Do`, the IP,
status and time it prints, the file names handed to `os.OpenFile` and the data
written. -/
structure RequestIPTrace where
  err : Option GoString
  newrequrl : Option GoString
  sent : Option HttpRequest
  reported : Option (GoString × GoString × Duration)
  opened : List GoString
  written : List (GoString × GoString)
deriving DecidableEq, Repr

/-- Go `RequestIP` (main.go lines 223-272), the function without configuration
that `Call` was written from; `main` does not call it.  Here the colons of `ip`
are replaced (line 257) before either file is opened. -/
def RequestIP (w : World) (requrl ip : GoString) : RequestIPTrace :=
  match w.urlParse requrl with
  | .error err =>
    { err := some err, newrequrl := none, sent := none, reported := none, opened := [],
      written := [] }
  | .ok urlValue =>
    let host := urlValue.Host
    let ip := if ip = [] then host else ip
    let newrequrl := Replace requrl host ip 1
    let client := Call.client host
    match NewRequest w "GET".toList newrequrl with
    | .error err =>
      { err := some (ReplaceAll err newrequrl requrl), newrequrl := some newrequrl, sent := none,
        reported := none, opened := [], written := [] }
    | .ok req =>
      let req := { req with Host := host }
      let req := { req with Header := headerSet req.Header "User-Agent".toList defaultUserAgent }
      match w.Do client req with
      | .error err =>
        { err := some (ReplaceAll err newrequrl requrl), newrequrl := some newrequrl,
          sent := some req, reported := none, opened := [], written := [] }
      | .ok resp =>
        let reported := (ip, resp.Status, w.since)
        let ip := ReplaceAll ip ":".toList ".".toList
        let header := "result/".toList ++ ip ++ "_header.txt".toList
        match w.OpenFile header with
        | some err =>
          { err := some err, newrequrl := some newrequrl, sent := some req,
            reported := some reported, opened := [header], written := [] }
        | none =>
          let body := "result/".toList ++ ip ++ "_body.txt".toList
          match w.OpenFile body with
          | some err =>
            { err := some err, newrequrl := some newrequrl, sent := some req,
              reported := some reported, opened := [header, body],
              written := [(header, resp.Status ++ "\n".toList ++ resp.Header)] }
          | none =>
            { err := none, newrequrl := some newrequrl, sent := some req,
              reported := some reported, opened := [header, body],
              written := [(header, resp.Status ++ "\n".toList ++ resp.Header),
                          (body, resp.Body)] }

/-! ### The dispatcher loop of `main` (main.go lines 133-148)

The goroutines and the channel are modelled as a state machine.  A job is a
request with its position in `reqs`; what `Call` returns for a job is given by
a function `call`, so that the model covers every behaviour of the calls. -/

/-- The state of the dispatcher: `todo` are the requests the loop of line 138
has not reached, `running` the goroutines that were started and have not sent
their result, `out` the content of the channel (oldest first), `cap` its
capacity, `i` the counter of the loop of line 145, `n` the value of
`len(reqs)`, and `printed` the results printed so far. -/
structure Dispatch where
  todo : List (Nat × Request)
  running : List (Nat × Request)
  out : List Result
  cap : Nat
  i : Nat
  n : Nat
  printed : List Result
deriving DecidableEq, Repr

/-- What the scheduler may let happen next: the main goroutine starts the
goroutine of the next request (lines 138-144); the `k`-th running goroutine
ends its `Call` and sends the result (lines 141-142); the main goroutine
receives a result and prints it (lines 145-148). -/
inductive Action where
  | spawn : Action
  | send : Nat → Action
  | recv : Action
deriving DecidableEq, Repr

/-- The state when line 138 is reached: nothing is started, the channel made at
line 134 has capacity `len(reqs)` and is empty. -/
def main.init (reqs : List Request) : Dispatch :=
  { todo := reqs.enum, running := [], out := [], cap := reqs.length, i := 0,
    n := reqs.length, printed := [] }

/-- One step of the dispatcher; `none` when the action cannot happen in the
state: no request is left to start, there is no `k`-th goroutine, the send
blocks on a full channel, or the receive loop is not reached, is over, or
blocks on an empty channel. -/
def main.step (call : Nat × Request → Result) (s : Dispatch) : Action → Option Dispatch
  | .spawn =>
    match s.todo with
    | [] => none
    | r :: rest => some { s with todo := rest, running := s.running ++ [r] }
  | .send k =>
    match s.running[k]? with
    | none => none
    | some r =>
      if s.out.length < s.cap then
        some { s with running := s.running.take k ++ s.running.drop (k + 1),
                      out := s.out ++ [call r] }
      else none
  | .recv =>
    if s.todo = [] ∧ s.i < s.n then
      match s.out with
      | [] => none
      | res :: rest => some { s with out := rest, i := s.i + 1, printed := s.printed ++ [res] }
    else none

/-- A run of the dispatcher under a schedule; `none` when one of the actions
cannot happen. -/
def main.run (call : Nat × Request → Result) : List Action → Dispatch → Option Dispatch
  | [], s => some s
  | a :: rest, s => (main.step call s a).bind (main.run call rest)

/-- The number of steps the dispatcher still has to make. -/
def main.stepsLeft (s : Dispatch) : Nat :=
  3 * s.todo.length + 2 * s.running.length + s.out.length

/-! ## Definitions used to state the properties -/

/-- What holds in every state of the dispatcher: the counters are those of the
source, and every job is at exactly one place: printed, in the channel, running
or not yet started. -/
def main.Inv (call : Nat × Request → Result) (reqs : List Request) (s : Dispatch) : Prop :=
  s.n = reqs.length ∧ s.cap = reqs.length ∧ s.i = s.printed.length ∧
  (s.printed ++ s.out ++ s.running.map call ++ s.todo.map call).Perm (reqs.enum.map call)

/-- The option keys of `request.txt`. -/
def optionKeys : List GoString :=
  ["url:".toList, "user-agent:".toList, "header-output:".toList, "body-output:".toList,
   "cookie:".toList]

/-- The line starts with one of the option keys. -/
def isOptionLine (text : GoString) : Bool := optionKeys.any (fun key => HasPrefix text key)

/-- The text after the key in the last of the lines that start with `key`. -/
def lastValue (key : GoString) (lines : List GoString) : Option GoString :=
  (lines.reverse.find? (fun l => HasPrefix l key)).map (fun l => l.drop key.length)

/-- The options a list of lines sets: for every key the value of the last line
with that key counts; a key without line leaves the zero value. -/
def optionsOf (lines : List GoString) : Config :=
  { URL := TrimSpace ((lastValue "url:".toList lines).getD []),
    UserAgent := TrimSpace ((lastValue "user-agent:".toList lines).getD []),
    Cookie := TrimSpace ((lastValue "cookie:".toList lines).getD []),
    HeadOutput := convToBool ((lastValue "header-output:".toList lines).getD []),
    BodyOutput := convToBool ((lastValue "body-output:".toList lines).getD []) }

/-- Two characters are the same ASCII letter, in the same or in different case,
or are equal. -/
def sameLetter (c d : Char) : Bool :=
  c = d || (isAlpha c && isAlpha d && (c.toNat + 32 = d.toNat || d.toNat + 32 = c.toNat))

/-- The two texts are equal when the case of ASCII letters is ignored. -/
def equalIgnoringCase : GoString → GoString → Bool
  | [], [] => true
  | c :: s, d :: t => sameLetter c d && equalIgnoringCase s t
  | _, _ => false

/-- A world for concrete runs: the reference URL parser, a server that answers
every request with `resp` after `dt` nanoseconds, and a file system that
answers `os.OpenFile` by `openFile`. -/
def answeringWorld (resp : Response) (dt : Duration) (openFile : GoString → Option GoString) :
    World :=
  { urlParse := urlParse, Do := fun _ _ => .ok resp, since := dt, OpenFile := openFile }

/-- A world for concrete runs in which the transport fails with the text `e`. -/
def failingWorld (e : GoString) : World :=
  { urlParse := urlParse, Do := fun _ _ => .error e, since := 0, OpenFile := fun _ => none }

/-- The answer `200 OK` with an empty header block and body. -/
def ok200 : Response := { Status := "200 OK".toList, Header := [], Body := [] }

/-- Two requests for concrete runs of the dispatcher: the IP of the second is no
host, so that its substituted URL does not parse. -/
def twoRequests : List Request :=
  [{ IP := "1.2.3.4".toList, Conf := { Config.zero with URL := "http://example.com/".toList } },
   { IP := "a b".toList, Conf := { Config.zero with URL := "http://example.com/".toList } }]

/-- The results of the calls when the server answers `200 OK` after one
millisecond. -/
def twoCalls (job : Nat × Request) : Result :=
  (Call (answeringWorld ok200 1000000 (fun _ => none)) job.2).res

/-- The state of the dispatcher after the two results were printed, the one of
the second request first. -/
def twoPrinted : Dispatch :=
  { todo := [], running := [], out := [], cap := 2, i := 2, n := 2,
    printed :=
      [{ IP := "a b".toList, Status := [], ReqTime := 0,
         Err := some "parse: invalid character   in host name".toList },
       { IP := "1.2.3.4".toList, Status := "200 OK".toList, ReqTime := 1000000, Err := none }] }

/-- The name of the header artifact for the key `ip`: the colons of the key are
replaced by dots. -/
def headerName (ip : GoString) : GoString :=
  "result/".toList ++ ReplaceAll ip ":".toList ".".toList ++ "_header.txt".toList

/-- The name of the body artifact built from the key `key`. -/
def bodyName (key : GoString) : GoString :=
  "result/".toList ++ key ++ "_body.txt".toList

end SimpleHttpTester

namespace SimpleHttpTester

/-! ## Characters -/

theorem toNat_ofNat_of_lt (n : Nat) (h : n < 0xd800) : (Char.ofNat n).toNat = n := by
  unfold Char.ofNat
  rw [dif_pos (Or.inl h)]
  rfl

theorem char_eq_of_toNat_eq {c d : Char} (h : c.toNat = d.toNat) : c = d := by
  have := congrArg Char.ofNat h
  simpa using this

theorem char_le_iff (c d : Char) : c ≤ d ↔ c.toNat ≤ d.toNat := by
  rw [Char.le_def]
  exact Iff.rfl

theorem char_eq_iff (c d : Char) : c = d ↔ c.toNat = d.toNat :=
  ⟨fun h => by rw [h], char_eq_of_toNat_eq⟩

/-- Lowering gives the lower-case letter `d` (other than `k` and `i`) exactly
for `d` itself and its upper-case form. -/
theorem toLowerRune_eq_iff (c d : Char) (hd : 97 ≤ d.toNat ∧ d.toNat ≤ 122)
    (hk : d.toNat ≠ 107) (hi : d.toNat ≠ 105) :
    toLowerRune c = d ↔ sameLetter c d = true := by
  have hA : 'A'.toNat = 65 := rfl
  have hZ : 'Z'.toNat = 90 := rfl
  have ha : 'a'.toNat = 97 := rfl
  have hz : 'z'.toNat = 122 := rfl
  have hkk : 'k'.toNat = 107 := rfl
  have hii : 'i'.toNat = 105 := rfl
  unfold toLowerRune
  simp only [sameLetter, isAlpha, Bool.or_eq_true, Bool.and_eq_true, decide_eq_true_eq,
    char_le_iff, char_eq_iff, hA, hZ, ha, hz]
  split_ifs with h1 h2 h3
  · rw [toNat_ofNat_of_lt _ (by omega)]
    omega
  · rw [hkk]; omega
  · rw [hii]; omega
  · omega

theorem ToLower_eq_false_iff (t : GoString) :
    ToLower t = "false".toList ↔ equalIgnoringCase t "false".toList = true := by
  have hf := fun c => toLowerRune_eq_iff c 'f' (by decide) (by decide) (by decide)
  have ha := fun c => toLowerRune_eq_iff c 'a' (by decide) (by decide) (by decide)
  have hl := fun c => toLowerRune_eq_iff c 'l' (by decide) (by decide) (by decide)
  have hs := fun c => toLowerRune_eq_iff c 's' (by decide) (by decide) (by decide)
  have he := fun c => toLowerRune_eq_iff c 'e' (by decide) (by decide) (by decide)
  have hw : "false".toList = ['f', 'a', 'l', 's', 'e'] := rfl
  rw [hw]
  rcases t with _ | ⟨c1, _ | ⟨c2, _ | ⟨c3, _ | ⟨c4, _ | ⟨c5, _ | ⟨c6, t⟩⟩⟩⟩⟩⟩ <;>
    simp [ToLower, equalIgnoringCase, hf, ha, hl, hs, he]

/-! ## `convToBool` -/

/-- C7, as amended: `convToBool val` is false exactly when `val` with its
leading and trailing white space removed is empty, is `0`, or equals `false`
ignoring case; for every other text it is true. -/
theorem convToBool_false_iff_trimmed (val : GoString) :
    (convToBool val = false ↔
      (TrimSpace val = [] ∨ TrimSpace val = "0".toList ∨
        equalIgnoringCase (TrimSpace val) "false".toList = true)) ∧
    (convToBool val = true ↔
      ¬ (TrimSpace val = [] ∨ TrimSpace val = "0".toList ∨
        equalIgnoringCase (TrimSpace val) "false".toList = true)) := by
  have key : convToBool val = false ↔
      (TrimSpace val = [] ∨ TrimSpace val = "0".toList ∨
        equalIgnoringCase (TrimSpace val) "false".toList = true) := by
    unfold convToBool
    simp only [ToLower_eq_false_iff]
    split_ifs with h
    · exact ⟨fun _ => h, fun _ => rfl⟩
    · exact ⟨fun h2 => absurd h2 (by decide), fun h2 => absurd h2 h⟩
  refine ⟨key, ?_⟩
  rw [← key]
  cases convToBool val <;> simp

/-- C7, as stated, fails: the text ` 0` (a blank, then `0`) is not empty, is not
`0` and is not `false` in any case, and `false ` with a trailing blank is none
of them either, yet `convToBool` is false on both. -/
theorem convToBool_surrounding_space_counterexample :
    (convToBool " 0".toList = false ∧
      ¬ (" 0".toList = [] ∨ " 0".toList = "0".toList ∨
          equalIgnoringCase " 0".toList "false".toList = true)) ∧
    (convToBool "false ".toList = false ∧
      ¬ ("false ".toList = [] ∨ "false ".toList = "0".toList ∨
          equalIgnoringCase "false ".toList "false".toList = true)) := by
  decide

/-! ## `strings.Index` and `strings.Replace` -/

theorem Replace_same (s h : GoString) (n : Int) : Replace s h h n = s := by
  simp [Replace]

theorem Index_some {s sub : GoString} {j : Nat} (h : Index s sub = some j) :
    sub <+: s.drop j ∧ j ≤ s.length ∧ ∀ i < j, ¬ sub <+: s.drop i := by
  induction s generalizing j with
  | nil =>
    unfold Index at h
    split_ifs at h with hp
    simp only [Option.some.injEq] at h
    subst h
    exact ⟨by simpa [List.isPrefixOf_iff_prefix] using hp, le_refl _, fun i hi => absurd hi (by omega)⟩
  | cons c t ih =>
    unfold Index at h
    split_ifs at h with hp
    · simp only [Option.some.injEq] at h
      subst h
      exact ⟨by simpa [List.isPrefixOf_iff_prefix] using hp, Nat.zero_le _,
        fun i hi => absurd hi (by omega)⟩
    · rcases hi : Index t sub with _ | k
      · rw [hi] at h
        simp at h
      · rw [hi] at h
        simp only [Option.map_some', Option.some.injEq] at h
        subst h
        obtain ⟨h1, h2, h3⟩ := ih hi
        refine ⟨by simpa using h1, by simpa using h2, ?_⟩
        intro i hi2
        rcases i with _ | i
        · simpa [List.isPrefixOf_iff_prefix] using hp
        · simpa using h3 i (by omega)

theorem Index_none {s sub : GoString} (h : Index s sub = none) (i : Nat) :
    ¬ sub <+: s.drop i := by
  induction s generalizing i with
  | nil =>
    unfold Index at h
    split_ifs at h with hp
    simpa [List.isPrefixOf_iff_prefix] using hp
  | cons c t ih =>
    unfold Index at h
    split_ifs at h with hp
    rcases hi : Index t sub with _ | k
    · rcases i with _ | i
      · simpa [List.isPrefixOf_iff_prefix] using hp
      · simpa using ih hi i
    · rw [hi] at h
      simp at h

theorem Index_of_first {s sub : GoString} {j : Nat} (hp : sub <+: s.drop j)
    (hmin : ∀ i < j, ¬ sub <+: s.drop i) : Index s sub = some j := by
  rcases h : Index s sub with _ | k
  · exact absurd hp (Index_none h j)
  · obtain ⟨h1, _, h3⟩ := Index_some h
    rcases Nat.lt_trichotomy k j with hlt | heq | hgt
    · exact absurd h1 (hmin k hlt)
    · rw [heq]
    · exact absurd hp (h3 j hgt)

theorem infix_iff_prefix_drop (s sub : GoString) :
    sub <:+: s ↔ ∃ i, sub <+: s.drop i := by
  constructor
  · rintro ⟨a, b, rfl⟩
    exact ⟨a.length, by simp⟩
  · rintro ⟨i, b, hb⟩
    refine ⟨s.take i, b, ?_⟩
    rw [List.append_assoc, hb, List.take_append_drop]

/-- `strings.Index` finds nothing exactly when there is no occurrence. -/
theorem Index_eq_none_iff (s sub : GoString) : Index s sub = none ↔ ¬ sub <:+: s := by
  rw [infix_iff_prefix_drop]
  constructor
  · intro h ⟨i, hi⟩
    exact Index_none h i hi
  · intro h
    rcases hi : Index s sub with _ | k
    · rfl
    · exact absurd ⟨k, (Index_some hi).1⟩ h

/-- The text around the occurrence that `strings.Index` finds. -/
theorem Index_split {s sub : GoString} {j : Nat} (h : Index s sub = some j) :
    s = s.take j ++ sub ++ s.drop (j + sub.length) := by
  obtain ⟨⟨b, hb⟩, _, _⟩ := Index_some h
  have : s.drop (j + sub.length) = b := by
    have h1 : (s.drop j).drop sub.length = b := by
      rw [← hb]
      simp
    rw [← h1, List.drop_drop]
  rw [this, List.append_assoc, hb, List.take_append_drop]

/-- The position that `strings.Index` finds, from a decomposition of the text
around a first occurrence. -/
theorem Index_of_split {pre sub suf : GoString}
    (hmin : ∀ i < pre.length, ¬ sub <+: (pre ++ sub ++ suf).drop i) :
    Index (pre ++ sub ++ suf) sub = some pre.length := by
  apply Index_of_first _ hmin
  simp

theorem countLoop_fuel (sub : GoString) (hsub : sub ≠ []) (fuel : Nat) (s : GoString)
    (h : s.length ≤ fuel) : countLoop sub fuel s = countLoop sub s.length s := by
  induction fuel using Nat.strong_induction_on generalizing s with
  | _ fuel ih =>
  rcases fuel with _ | f
  · have : s.length = 0 := by omega
    rw [this]
  · rcases s with _ | ⟨c, t⟩
    · have : Index [] sub = none := by
        rw [Index_eq_none_iff]
        rintro ⟨a, b, hab⟩
        simp at hab
        exact hsub hab.2.1
      simp [countLoop, this]
    · simp only [countLoop, List.length_cons]
      rcases hi : Index (c :: t) sub with _ | i
      · rfl
      · simp only
        have hl : ((c :: t).drop (i + sub.length)).length ≤ t.length := by
          have : 0 < sub.length := List.length_pos.mpr hsub
          simp only [List.length_drop, List.length_cons]
          omega
        have hlen : t.length ≤ f := by simpa using h
        rw [ih f (by omega) _ (le_trans hl hlen)]
        rcases Nat.lt_or_ge t.length (f + 1) with hlt | hge
        · rw [ih t.length hlt _ hl]
        · omega

/-- The count of a non-empty text is zero exactly when `strings.Index` finds
nothing. -/
theorem Count_eq_zero_iff (s sub : GoString) (hsub : sub ≠ []) :
    Count s sub = 0 ↔ Index s sub = none := by
  unfold Count
  rw [if_neg hsub]
  rcases s with _ | ⟨c, t⟩
  · have : Index [] sub = none := by
      rw [Index_eq_none_iff]
      rintro ⟨a, b, hab⟩
      simp at hab
      exact hsub hab.2.1
    simp [countLoop, this]
  · simp only [countLoop, List.length_cons]
    rcases hi : Index (c :: t) sub with _ | i <;> simp

/-- `strings.Replace` with `n = 1`: the first occurrence that `strings.Index`
finds is replaced, and a text without occurrence is returned as it is. -/
theorem Replace_one (s old new : GoString) :
    Replace s old new 1 =
      match Index s old with
      | none => s
      | some j => s.take j ++ new ++ s.drop (j + old.length) := by
  unfold Replace
  by_cases heq : old = new
  · subst heq
    simp only [true_or, if_true]
    rcases hi : Index s old with _ | j
    · rfl
    · exact Index_split hi
  · simp only [heq, false_or, one_ne_zero, if_false]
    by_cases hold : old = []
    · subst hold
      have hi : Index s [] = some 0 := Index_of_first (by simp) (fun i hi => absurd hi (by omega))
      simp [Count, hi, replaceEmptyLoop]
    · rcases hi : Index s old with _ | j
      · have := (Count_eq_zero_iff s old hold).mpr hi
        simp [this]
      · have hne : Count s old ≠ 0 := by
          rw [Ne, Count_eq_zero_iff s old hold, hi]
          simp
        have hk : (if (1 : Int) < 0 ∨ ((Count s old : Nat) : Int) < 1 then Count s old
            else (1 : Int).toNat) = 1 := by
          rw [if_neg]
          · rfl
          · omega
        simp only [hne, if_false, hold, hk, replaceLoop, hi]

/-- `strings.ReplaceAll` on a text without occurrence of `old`. -/
theorem ReplaceAll_of_not_infix (e old new : GoString) (h : ¬ old <:+: e) :
    ReplaceAll e old new = e := by
  have hi := (Index_eq_none_iff e old).mpr h
  have hold : old ≠ [] := by
    rintro rfl
    exact h List.nil_infix
  unfold ReplaceAll Replace
  by_cases heq : old = new
  · simp [heq]
  · simp [heq, (Count_eq_zero_iff e old hold).mpr hi]

/-- `strings.ReplaceAll` on a text with an occurrence of the non-empty `old`:
the first occurrence is replaced, and the text after it is treated likewise. -/
theorem ReplaceAll_of_Index (e old new : GoString) (hold : old ≠ []) {j : Nat}
    (hi : Index e old = some j) :
    ReplaceAll e old new =
      e.take j ++ new ++ ReplaceAll (e.drop (j + old.length)) old new := by
  by_cases heq : old = new
  · subst heq
    simp only [ReplaceAll, Replace_same]
    rw [← Index_split hi]
  · have hrest : ∀ r : GoString, ReplaceAll r old new = replaceLoop old new (Count r old) r := by
      intro r
      unfold ReplaceAll Replace
      simp only [heq, false_or, hold, if_false]
      by_cases hc : Count r old = 0
      · simp [hc, replaceLoop]
      · simp [hc]
    rw [hrest, hrest]
    have hpos : 0 < old.length := List.length_pos.mpr hold
    rcases e with _ | ⟨c, t⟩
    · have := (Index_some hi).1
      have hj := (Index_some hi).2.1
      simp at hj
      subst hj
      simp at this
      exact absurd this hold
    · have hl : ((c :: t).drop (j + old.length)).length ≤ t.length := by
        simp only [List.length_drop, List.length_cons]
        omega
      have hc : Count (c :: t) old = Count ((c :: t).drop (j + old.length)) old + 1 := by
        unfold Count
        rw [if_neg hold, if_neg hold]
        simp only [List.length_cons, countLoop, hi]
        rw [countLoop_fuel old hold _ _ hl]
      rw [hc]
      simp only [replaceLoop, hi]

/-! ## `Request.Call`: what the capture stages leave unchanged -/

theorem bodyOutput_keeps (w : World) (rq : Request) (resp : Response) (ip : GoString)
    (t : CallTrace) :
    (Call.bodyOutput w rq resp ip t).client = t.client ∧
    (Call.bodyOutput w rq resp ip t).newrequrl = t.newrequrl ∧
    (Call.bodyOutput w rq resp ip t).sent = t.sent ∧
    (Call.bodyOutput w rq resp ip t).res.IP = t.res.IP ∧
    (Call.bodyOutput w rq resp ip t).res.Status = t.res.Status ∧
    (Call.bodyOutput w rq resp ip t).res.ReqTime = t.res.ReqTime := by
  unfold Call.bodyOutput
  split_ifs
  · dsimp only
    split <;> simp
  · simp

theorem output_keeps (w : World) (rq : Request) (resp : Response) (ip : GoString)
    (t : CallTrace) :
    (Call.output w rq resp ip t).client = t.client ∧
    (Call.output w rq resp ip t).newrequrl = t.newrequrl ∧
    (Call.output w rq resp ip t).sent = t.sent ∧
    (Call.output w rq resp ip t).res.IP = t.res.IP ∧
    (Call.output w rq resp ip t).res.Status = t.res.Status ∧
    (Call.output w rq resp ip t).res.ReqTime = t.res.ReqTime := by
  unfold Call.output
  split_ifs
  · dsimp only
    split
    · simp
    · exact bodyOutput_keeps w rq resp _ _
  · exact bodyOutput_keeps w rq resp _ _

/-- The four ways through `Call`: the base URL does not parse; the substituted
URL does not parse, so that no request is built; the transport fails; the
request is answered and the capture stages run. -/
theorem Call_cases (w : World) (rq : Request) (P : CallTrace → Prop)
    (h1 : ∀ e, w.urlParse rq.Conf.URL = .error e →
      P { res := { IP := [], Status := [], ReqTime := 0, Err := some e }, client := none,
          newrequrl := none, sent := none, opened := [], written := [] })
    (h2 : ∀ u e, w.urlParse rq.Conf.URL = .ok u →
      w.urlParse (Replace rq.Conf.URL u.Host (Call.ip rq u.Host) 1) = .error e →
      P { res := { IP := Call.ip rq u.Host, Status := [], ReqTime := 0,
                   Err := some (ReplaceAll e (Replace rq.Conf.URL u.Host (Call.ip rq u.Host) 1)
                            rq.Conf.URL) },
          client := some (Call.client u.Host),
          newrequrl := some (Replace rq.Conf.URL u.Host (Call.ip rq u.Host) 1),
          sent := none, opened := [], written := [] })
    (h3 : ∀ u req e, w.urlParse rq.Conf.URL = .ok u →
      NewRequest w "GET".toList (Replace rq.Conf.URL u.Host (Call.ip rq u.Host) 1) = .ok req →
      w.Do (Call.client u.Host) (Call.setHeaders rq u.Host req) = .error e →
      P { res := { IP := Call.ip rq u.Host, Status := [], ReqTime := 0,
                   Err := some (ReplaceAll e (Replace rq.Conf.URL u.Host (Call.ip rq u.Host) 1)
                            rq.Conf.URL) },
          client := some (Call.client u.Host),
          newrequrl := some (Replace rq.Conf.URL u.Host (Call.ip rq u.Host) 1),
          sent := some (Call.setHeaders rq u.Host req), opened := [], written := [] })
    (h4 : ∀ u req resp, w.urlParse rq.Conf.URL = .ok u →
      NewRequest w "GET".toList (Replace rq.Conf.URL u.Host (Call.ip rq u.Host) 1) = .ok req →
      w.Do (Call.client u.Host) (Call.setHeaders rq u.Host req) = .ok resp →
      P (Call.output w rq resp (Call.ip rq u.Host)
          { res := { IP := Call.ip rq u.Host, Status := resp.Status, ReqTime := w.since,
                     Err := none },
            client := some (Call.client u.Host),
            newrequrl := some (Replace rq.Conf.URL u.Host (Call.ip rq u.Host) 1),
            sent := some (Call.setHeaders rq u.Host req), opened := [], written := [] })) :
    P (Call w rq) := by
  unfold Call
  dsimp only
  rcases hp : w.urlParse rq.Conf.URL with e | u
  · exact h1 e hp
  · dsimp only
    rcases hn : NewRequest w "GET".toList (Replace rq.Conf.URL u.Host (Call.ip rq u.Host) 1)
      with e | req
    · dsimp only
      have hn2 : w.urlParse (Replace rq.Conf.URL u.Host (Call.ip rq u.Host) 1) = .error e := by
        unfold NewRequest at hn
        split at hn
        · rename_i e2 he2
          simp only [Except.error.injEq] at hn
          rw [he2, hn]
        · simp at hn
      exact h2 u e hp hn2
    · dsimp only
      rcases hd : w.Do (Call.client u.Host) (Call.setHeaders rq u.Host req) with e | resp
      · exact h3 u req e hp hn hd
      · exact h4 u req resp hp hn hd

theorem NewRequest_ok (w : World) (method url : GoString) (req : HttpRequest)
    (h : NewRequest w method url = .ok req) :
    (∃ v, w.urlParse url = .ok v) ∧ req.Method = method ∧ req.URL = url := by
  unfold NewRequest at h
  split at h
  · simp at h
  · rename_i v hv
    simp only [Except.ok.injEq] at h
    subst h
    exact ⟨⟨v, hv⟩, rfl, rfl⟩

theorem setHeaders_keeps (rq : Request) (host : GoString) (req : HttpRequest) :
    (Call.setHeaders rq host req).Host = host ∧
    (Call.setHeaders rq host req).Method = req.Method ∧
    (Call.setHeaders rq host req).URL = req.URL := by
  unfold Call.setHeaders
  dsimp only
  split_ifs <;> simp

/-- The client, the URL handed to `http.NewRequest` and the `IP` of the result,
once the base URL has parsed. -/
theorem Call_of_parse_ok (w : World) (rq : Request) (u : URL)
    (h : w.urlParse rq.Conf.URL = .ok u) :
    (Call w rq).client = some (Call.client u.Host) ∧
    (Call w rq).newrequrl = some (Replace rq.Conf.URL u.Host (Call.ip rq u.Host) 1) ∧
    (Call w rq).res.IP = Call.ip rq u.Host := by
  refine Call_cases w rq
    (fun t => t.client = some (Call.client u.Host) ∧
      t.newrequrl = some (Replace rq.Conf.URL u.Host (Call.ip rq u.Host) 1) ∧
      t.res.IP = Call.ip rq u.Host) ?_ ?_ ?_ ?_
  · intro e he
    rw [h] at he
    simp at he
  · intro v e hv _
    rw [h] at hv
    simp only [Except.ok.injEq] at hv
    subst hv
    exact ⟨rfl, rfl, rfl⟩
  · intro v req e hv _ _
    rw [h] at hv
    simp only [Except.ok.injEq] at hv
    subst hv
    exact ⟨rfl, rfl, rfl⟩
  · intro v req resp hv _ _
    rw [h] at hv
    simp only [Except.ok.injEq] at hv
    subst hv
    have hk := output_keeps w rq resp (Call.ip rq u.Host)
      { res := { IP := Call.ip rq u.Host, Status := resp.Status, ReqTime := w.since,
                 Err := none },
        client := some (Call.client u.Host),
        newrequrl := some (Replace rq.Conf.URL u.Host (Call.ip rq u.Host) 1),
        sent := some (Call.setHeaders rq u.Host req), opened := [], written := [] }
    exact ⟨hk.1, hk.2.1, hk.2.2.2.1⟩

/-- The request handed to `client.Do`, once the base URL has parsed: there is
one exactly when the substituted URL parses, and its `Host` is the host of the
base URL. -/
theorem Call_sent_of_parse_ok (w : World) (rq : Request) (u : URL)
    (h : w.urlParse rq.Conf.URL = .ok u) :
    (∀ req, (Call w rq).sent = some req →
      req.Host = u.Host ∧ req.Method = "GET".toList ∧
      req.URL = Replace rq.Conf.URL u.Host (Call.ip rq u.Host) 1) ∧
    ((Call w rq).sent.isSome = true ↔
      ∃ v, w.urlParse (Replace rq.Conf.URL u.Host (Call.ip rq u.Host) 1) = .ok v) := by
  refine Call_cases w rq
    (fun t => (∀ req, t.sent = some req →
      req.Host = u.Host ∧ req.Method = "GET".toList ∧
      req.URL = Replace rq.Conf.URL u.Host (Call.ip rq u.Host) 1) ∧
      (t.sent.isSome = true ↔
        ∃ v, w.urlParse (Replace rq.Conf.URL u.Host (Call.ip rq u.Host) 1) = .ok v)) ?_ ?_ ?_ ?_
  · intro e he
    rw [h] at he
    simp at he
  · intro v e hv he
    rw [h] at hv
    simp only [Except.ok.injEq] at hv
    subst hv
    simp [he]
  · intro v req e hv hn _
    rw [h] at hv
    simp only [Except.ok.injEq] at hv
    subst hv
    have hr := NewRequest_ok w _ _ req hn
    have hs := setHeaders_keeps rq u.Host req
    refine ⟨?_, by simpa using hr.1⟩
    intro r hreq
    simp only [Option.some.injEq] at hreq
    subst hreq
    exact ⟨hs.1, hs.2.1.trans hr.2.1, hs.2.2.trans hr.2.2⟩
  · intro v req resp hv hn _
    rw [h] at hv
    simp only [Except.ok.injEq] at hv
    subst hv
    have hr := NewRequest_ok w _ _ req hn
    have hs := setHeaders_keeps rq u.Host req
    have hk := output_keeps w rq resp (Call.ip rq u.Host)
      { res := { IP := Call.ip rq u.Host, Status := resp.Status, ReqTime := w.since,
                 Err := none },
        client := some (Call.client u.Host),
        newrequrl := some (Replace rq.Conf.URL u.Host (Call.ip rq u.Host) 1),
        sent := some (Call.setHeaders rq u.Host req), opened := [], written := [] }
    rw [hk.2.2.1]
    refine ⟨?_, by simpa using hr.1⟩
    intro r hreq
    simp only [Option.some.injEq] at hreq
    subst hreq
    exact ⟨hs.1, hs.2.1.trans hr.2.1, hs.2.2.trans hr.2.2⟩

/-! ## C10 and C2 -/

/-- C10: when the base URL parses and the IP of the target is empty, the `IP`
of the result is the host of the base URL, and the URL handed to
`http.NewRequest` (and carried by the request that is sent) is the base URL
itself. -/
theorem Call_empty_IP_baseline (w : World) (conf : Config) (u : URL)
    (h : w.urlParse conf.URL = .ok u) :
    (Call w { IP := [], Conf := conf }).res.IP = u.Host ∧
    (Call w { IP := [], Conf := conf }).newrequrl = some conf.URL ∧
    (∀ req, (Call w { IP := [], Conf := conf }).sent = some req → req.URL = conf.URL) := by
  have h1 := Call_of_parse_ok w { IP := [], Conf := conf } u h
  have h2 := Call_sent_of_parse_ok w { IP := [], Conf := conf } u h
  have hip : Call.ip { IP := [], Conf := conf } u.Host = u.Host := rfl
  rw [hip, Replace_same] at h1 h2
  exact ⟨h1.2.2, h1.2.1, fun req hreq => (h2.1 req hreq).2.2⟩

/-- C10 at `http://example.com/` with an empty IP. -/
theorem Call_empty_IP_baseline_witness :
    (answeringWorld ok200 1000000 (fun _ => none)).urlParse "http://example.com/x".toList
      = .ok { URL.zero with Scheme := "http".toList, Host := "example.com".toList,
                            Path := "/x".toList } ∧
    (Call (answeringWorld ok200 1000000 (fun _ => none))
      { IP := [], Conf := { Config.zero with URL := "http://example.com/x".toList } }).res.IP
      = "example.com".toList :=
  ⟨by decide,
   (Call_empty_IP_baseline (answeringWorld ok200 1000000 (fun _ => none))
      { Config.zero with URL := "http://example.com/x".toList }
      { URL.zero with Scheme := "http".toList, Host := "example.com".toList,
                      Path := "/x".toList } (by decide)).1⟩

/-- C2: when the base URL parses, the client that `Call` builds has the host of
the base URL as TLS `ServerName`, and the request it hands to `client.Do` (there
is one exactly when the substituted URL parses) has that host as `Host`; this
holds for every IP of the target, empty or not. -/
theorem Call_Host_and_ServerName (w : World) (conf : Config) (u : URL)
    (h : w.urlParse conf.URL = .ok u) (ip : GoString) :
    (∃ c, (Call w { IP := ip, Conf := conf }).client = some c ∧ c.ServerName = u.Host) ∧
    (∀ req, (Call w { IP := ip, Conf := conf }).sent = some req → req.Host = u.Host) ∧
    ((∃ v, w.urlParse (Replace conf.URL u.Host (if ip = [] then u.Host else ip) 1) = .ok v) →
      ∃ req, (Call w { IP := ip, Conf := conf }).sent = some req ∧ req.Host = u.Host) := by
  have h1 := Call_of_parse_ok w { IP := ip, Conf := conf } u h
  have h2 := Call_sent_of_parse_ok w { IP := ip, Conf := conf } u h
  refine ⟨⟨_, h1.1, rfl⟩, fun req hreq => (h2.1 req hreq).1, ?_⟩
  intro hv
  have h3 := h2.2.2 hv
  rcases hs : (Call w { IP := ip, Conf := conf }).sent with _ | req
  · rw [hs] at h3
    simp at h3
  · exact ⟨req, rfl, (h2.1 req hs).1⟩

/-- C2 at `https://example.com/` with the IP `93.184.216.34`. -/
theorem Call_Host_and_ServerName_witness :
    (answeringWorld ok200 1000000 (fun _ => none)).urlParse "https://example.com/".toList
      = .ok { URL.zero with Scheme := "https".toList, Host := "example.com".toList,
                            Path := "/".toList } ∧
    ∃ req, (Call (answeringWorld ok200 1000000 (fun _ => none))
        { IP := "93.184.216.34".toList,
          Conf := { Config.zero with URL := "https://example.com/".toList } }).sent = some req ∧
      req.Host = "example.com".toList :=
  ⟨by decide,
   (Call_Host_and_ServerName (answeringWorld ok200 1000000 (fun _ => none))
      { Config.zero with URL := "https://example.com/".toList }
      { URL.zero with Scheme := "https".toList, Host := "example.com".toList,
                      Path := "/".toList } (by decide) "93.184.216.34".toList).2.2
      ⟨{ URL.zero with Scheme := "https".toList, Host := "93.184.216.34".toList,
                       Path := "/".toList }, by decide⟩⟩

/-! ## C3: the shape of the result -/

/-- The body capture, entered without error: it ends without error and every
file it tried is open, or it ends with the error of the last file it tried. -/
theorem bodyOutput_Err (w : World) (rq : Request) (resp : Response) (ip : GoString)
    (t : CallTrace) (h0 : t.res.Err = none) (h1 : ∀ name ∈ t.opened, w.OpenFile name = none) :
    ((Call.bodyOutput w rq resp ip t).res.Err = none ∧
      ∀ name ∈ (Call.bodyOutput w rq resp ip t).opened, w.OpenFile name = none) ∨
    (∃ e name, (Call.bodyOutput w rq resp ip t).res.Err = some e ∧
      (Call.bodyOutput w rq resp ip t).opened.getLast? = some name ∧
      w.OpenFile name = some e ∧ rq.Conf.BodyOutput = true) := by
  unfold Call.bodyOutput
  split_ifs with hb
  · dsimp only
    split
    · rename_i err herr
      exact Or.inr ⟨err, _, rfl, by simp, herr, hb⟩
    · rename_i hnone
      refine Or.inl ⟨h0, ?_⟩
      intro name hname
      simp only [List.mem_append, List.mem_singleton] at hname
      rcases hname with hname | hname
      · exact h1 name hname
      · rw [hname]; exact hnone
  · exact Or.inl ⟨h0, h1⟩

/-- The header capture followed by the body capture, entered without error. -/
theorem output_Err (w : World) (rq : Request) (resp : Response) (ip : GoString)
    (t : CallTrace) (h0 : t.res.Err = none) (h1 : ∀ name ∈ t.opened, w.OpenFile name = none) :
    ((Call.output w rq resp ip t).res.Err = none ∧
      ∀ name ∈ (Call.output w rq resp ip t).opened, w.OpenFile name = none) ∨
    (∃ e name, (Call.output w rq resp ip t).res.Err = some e ∧
      (Call.output w rq resp ip t).opened.getLast? = some name ∧
      w.OpenFile name = some e ∧ (rq.Conf.HeadOutput = true ∨ rq.Conf.BodyOutput = true)) := by
  unfold Call.output
  split_ifs with hh
  · dsimp only
    split
    · rename_i err herr
      exact Or.inr ⟨err, _, rfl, by simp, herr, Or.inl hh⟩
    · rename_i hnone
      have := bodyOutput_Err w rq resp (ReplaceAll ip ":".toList ".".toList)
        { t with opened := t.opened ++ ["result/".toList ++ ReplaceAll ip ":".toList ".".toList
                                          ++ "_header.txt".toList],
                 written := t.written ++ [("result/".toList ++ ReplaceAll ip ":".toList ".".toList
                                          ++ "_header.txt".toList,
                                          resp.Status ++ "\n".toList ++ resp.Header)] }
        h0 (by
          intro name hname
          simp only [List.mem_append, List.mem_singleton] at hname
          rcases hname with hname | hname
          · exact h1 name hname
          · rw [hname]; exact hnone)
      rcases this with h | ⟨e, name, h2, h3, h4, h5⟩
      · exact Or.inl h
      · exact Or.inr ⟨e, name, h2, h3, h4, Or.inr h5⟩
  · rcases bodyOutput_Err w rq resp ip t h0 h1 with h | ⟨e, name, h2, h3, h4, h5⟩
    · exact Or.inl h
    · exact Or.inr ⟨e, name, h2, h3, h4, Or.inr h5⟩

/-- The result of `Call` has one of three shapes, which exclude one another by
their `Err` and the files tried.  Either `Err`
is nil, the request was answered, `Status` and `ReqTime` are those of the
answer and every artifact file that was tried is open; or `Err` is set, no
artifact file was tried, `Status` is empty and `ReqTime` is zero (the URL did
not parse, or the request could not be built or was not answered); or capture
is enabled, the last artifact file tried could not be opened, `Err` is the
error of that `os.OpenFile`, and `Status` and `ReqTime` are still those of the
answer. -/
theorem Call_three_shapes (w : World) (rq : Request) :
    ((Call w rq).res.Err = none ∧
      (∃ c req resp, (Call w rq).client = some c ∧ (Call w rq).sent = some req ∧
        w.Do c req = .ok resp ∧ (Call w rq).res.Status = resp.Status ∧
        (Call w rq).res.ReqTime = w.since) ∧
      ∀ name ∈ (Call w rq).opened, w.OpenFile name = none) ∨
    (∃ e, (Call w rq).res.Err = some e ∧ (Call w rq).opened = [] ∧
      (Call w rq).res.Status = [] ∧ (Call w rq).res.ReqTime = 0) ∨
    (∃ e name, (Call w rq).res.Err = some e ∧ (Call w rq).opened.getLast? = some name ∧
      w.OpenFile name = some e ∧ (rq.Conf.HeadOutput = true ∨ rq.Conf.BodyOutput = true) ∧
      ∃ c req resp, (Call w rq).client = some c ∧ (Call w rq).sent = some req ∧
        w.Do c req = .ok resp ∧ (Call w rq).res.Status = resp.Status ∧
        (Call w rq).res.ReqTime = w.since) := by
  refine Call_cases w rq
    (fun t => (t.res.Err = none ∧
      (∃ c req resp, t.client = some c ∧ t.sent = some req ∧
        w.Do c req = .ok resp ∧ t.res.Status = resp.Status ∧ t.res.ReqTime = w.since) ∧
      ∀ name ∈ t.opened, w.OpenFile name = none) ∨
    (∃ e, t.res.Err = some e ∧ t.opened = [] ∧ t.res.Status = [] ∧ t.res.ReqTime = 0) ∨
    (∃ e name, t.res.Err = some e ∧ t.opened.getLast? = some name ∧
      w.OpenFile name = some e ∧ (rq.Conf.HeadOutput = true ∨ rq.Conf.BodyOutput = true) ∧
      ∃ c req resp, t.client = some c ∧ t.sent = some req ∧
        w.Do c req = .ok resp ∧ t.res.Status = resp.Status ∧ t.res.ReqTime = w.since))
    ?_ ?_ ?_ ?_
  · intro e _
    exact Or.inr (Or.inl ⟨_, rfl, rfl, rfl, rfl⟩)
  · intro u e _ _
    exact Or.inr (Or.inl ⟨_, rfl, rfl, rfl, rfl⟩)
  · intro u req e _ _ _
    exact Or.inr (Or.inl ⟨_, rfl, rfl, rfl, rfl⟩)
  · intro u req resp _ _ hresp
    have hk := output_keeps w rq resp (Call.ip rq u.Host)
      { res := { IP := Call.ip rq u.Host, Status := resp.Status, ReqTime := w.since,
                 Err := none },
        client := some (Call.client u.Host),
        newrequrl := some (Replace rq.Conf.URL u.Host (Call.ip rq u.Host) 1),
        sent := some (Call.setHeaders rq u.Host req), opened := [], written := [] }
    rcases output_Err w rq resp (Call.ip rq u.Host)
      { res := { IP := Call.ip rq u.Host, Status := resp.Status, ReqTime := w.since,
                 Err := none },
        client := some (Call.client u.Host),
        newrequrl := some (Replace rq.Conf.URL u.Host (Call.ip rq u.Host) 1),
        sent := some (Call.setHeaders rq u.Host req), opened := [], written := [] }
      rfl (by simp) with h | ⟨e, name, h2, h3, h4, h5⟩
    · exact Or.inl ⟨h.1, ⟨_, _, resp, hk.1, hk.2.2.1, hresp, hk.2.2.2.2.1, hk.2.2.2.2.2⟩, h.2⟩
    · exact Or.inr (Or.inr ⟨e, name, h2, h3, h4, h5, _, _, resp, hk.1, hk.2.2.1, hresp,
        hk.2.2.2.2.1, hk.2.2.2.2.2⟩)

/-- The trace of `Call` when the base URL does not parse. -/
theorem Call_parse_error (w : World) (rq : Request) (e : GoString)
    (hp : w.urlParse rq.Conf.URL = .error e) :
    Call w rq =
      { res := { IP := [], Status := [], ReqTime := 0, Err := some e }, client := none,
        newrequrl := none, sent := none, opened := [], written := [] } := by
  unfold Call
  simp only [hp]

/-- The trace of `Call` when the substituted URL does not parse. -/
theorem Call_build_error (w : World) (rq : Request) (u : URL) (e : GoString)
    (hp : w.urlParse rq.Conf.URL = .ok u)
    (hn : w.urlParse (Replace rq.Conf.URL u.Host (Call.ip rq u.Host) 1) = .error e) :
    Call w rq =
      { res := { IP := Call.ip rq u.Host, Status := [], ReqTime := 0,
                 Err := some (ReplaceAll e (Replace rq.Conf.URL u.Host (Call.ip rq u.Host) 1)
                          rq.Conf.URL) },
        client := some (Call.client u.Host),
        newrequrl := some (Replace rq.Conf.URL u.Host (Call.ip rq u.Host) 1),
        sent := none, opened := [], written := [] } := by
  have hn2 : NewRequest w "GET".toList (Replace rq.Conf.URL u.Host (Call.ip rq u.Host) 1)
      = .error e := by
    unfold NewRequest
    simp only [hn]
  unfold Call
  simp only [hp, hn2]

/-- The trace of `Call` when the transport fails. -/
theorem Call_transport_error (w : World) (rq : Request) (u : URL) (req : HttpRequest)
    (e : GoString) (hp : w.urlParse rq.Conf.URL = .ok u)
    (hn : NewRequest w "GET".toList (Replace rq.Conf.URL u.Host (Call.ip rq u.Host) 1) = .ok req)
    (hd : w.Do (Call.client u.Host) (Call.setHeaders rq u.Host req) = .error e) :
    Call w rq =
      { res := { IP := Call.ip rq u.Host, Status := [], ReqTime := 0,
                 Err := some (ReplaceAll e (Replace rq.Conf.URL u.Host (Call.ip rq u.Host) 1)
                          rq.Conf.URL) },
        client := some (Call.client u.Host),
        newrequrl := some (Replace rq.Conf.URL u.Host (Call.ip rq u.Host) 1),
        sent := some (Call.setHeaders rq u.Host req), opened := [], written := [] } := by
  unfold Call
  simp only [hp, hn, hd]

/-- The trace of `Call` when the request is answered: the capture stages run on
the result that holds the status and the time of the answer. -/
theorem Call_answered (w : World) (rq : Request) (u : URL) (req : HttpRequest)
    (resp : Response) (hp : w.urlParse rq.Conf.URL = .ok u)
    (hn : NewRequest w "GET".toList (Replace rq.Conf.URL u.Host (Call.ip rq u.Host) 1) = .ok req)
    (hd : w.Do (Call.client u.Host) (Call.setHeaders rq u.Host req) = .ok resp) :
    Call w rq =
      Call.output w rq resp (Call.ip rq u.Host)
        { res := { IP := Call.ip rq u.Host, Status := resp.Status, ReqTime := w.since,
                   Err := none },
          client := some (Call.client u.Host),
          newrequrl := some (Replace rq.Conf.URL u.Host (Call.ip rq u.Host) 1),
          sent := some (Call.setHeaders rq u.Host req), opened := [], written := [] } := by
  unfold Call
  simp only [hp, hn, hd]

/-- The files the capture stages try, and the error they leave, when they are
entered without error and without a file tried: the header file is tried
exactly when header capture is on; the body file exactly when body capture is
on and the header file, if tried, is open; the error is that of the file that
could not be opened. -/
theorem output_exact (w : World) (rq : Request) (resp : Response) (ip : GoString)
    (t : CallTrace) (h0 : t.res.Err = none) (ho : t.opened = []) :
    (Call.output w rq resp ip t).opened =
      (if rq.Conf.HeadOutput = true then [headerName ip] else []) ++
      (if rq.Conf.BodyOutput = true ∧ (rq.Conf.HeadOutput = true → w.OpenFile (headerName ip) = none)
        then [bodyName (if rq.Conf.HeadOutput = true then ReplaceAll ip ":".toList ".".toList
                          else ip)]
        else []) ∧
    (rq.Conf.HeadOutput = true → ∀ e, w.OpenFile (headerName ip) = some e →
      (Call.output w rq resp ip t).res.Err = some e) ∧
    (rq.Conf.BodyOutput = true →
      (rq.Conf.HeadOutput = true → w.OpenFile (headerName ip) = none) →
      (Call.output w rq resp ip t).res.Err =
        w.OpenFile (bodyName (if rq.Conf.HeadOutput = true then ReplaceAll ip ":".toList ".".toList
                                else ip))) ∧
    (rq.Conf.BodyOutput = false →
      (rq.Conf.HeadOutput = true → w.OpenFile (headerName ip) = none) →
      (Call.output w rq resp ip t).res.Err = none) := by
  unfold Call.output Call.bodyOutput
  rcases hh : rq.Conf.HeadOutput with _ | _ <;> rcases hb : rq.Conf.BodyOutput with _ | _
  · simp [h0, ho]
  · rcases hob : w.OpenFile (bodyName ip) with _ | e
    · simp [bodyName] at hob
      simp [h0, ho, bodyName, hob]
    · simp [bodyName] at hob
      simp [h0, ho, bodyName, hob]
  · rcases hoh : w.OpenFile (headerName ip) with _ | e
    · simp [headerName] at hoh
      simp [h0, ho, headerName, hoh]
    · simp [headerName] at hoh
      simp [h0, ho, headerName, hoh]
  · rcases hoh : w.OpenFile (headerName ip) with _ | e
    · simp [headerName] at hoh
      rcases hob : w.OpenFile (bodyName (ReplaceAll ip ":".toList ".".toList)) with _ | e
      · simp [bodyName] at hob
        simp [h0, ho, headerName, bodyName, hoh, hob]
      · simp [bodyName] at hob
        simp [h0, ho, headerName, bodyName, hoh, hob]
    · simp [headerName] at hoh
      simp [h0, ho, headerName, hoh]

/-- C3, as amended: the result of `Call` has one of three shapes, which exclude
one another by their `Err` and the files tried: `Err` nil with the `Status` and
`ReqTime` of the answer and every file tried open; or `Err` set, no file tried,
`Status` empty and `ReqTime` zero; or capture enabled, `Err` the error of the
last file tried, and the `Status` and `ReqTime` of the answer kept.  Which one
it is follows the way through `Call`.  When the base URL does not parse, the
substituted URL does not parse or the transport fails, `Err` is set, `Status`
is empty, `ReqTime` is zero and no file is tried.  When the request is
answered, `Status` and `ReqTime` are those of the answer; the header file is
tried exactly when header capture is on, the body file exactly when body
capture is on and the header file, if tried, is open; a file that cannot be
opened makes `Err` the error of that `os.OpenFile`, and `Err` is nil when no
file tried fails. -/
theorem Call_result_shape (w : World) (rq : Request) :
    (((Call w rq).res.Err = none ∧
      (∃ c req resp, (Call w rq).client = some c ∧ (Call w rq).sent = some req ∧
        w.Do c req = .ok resp ∧ (Call w rq).res.Status = resp.Status ∧
        (Call w rq).res.ReqTime = w.since) ∧
      ∀ name ∈ (Call w rq).opened, w.OpenFile name = none) ∨
    (∃ e, (Call w rq).res.Err = some e ∧ (Call w rq).opened = [] ∧
      (Call w rq).res.Status = [] ∧ (Call w rq).res.ReqTime = 0) ∨
    (∃ e name, (Call w rq).res.Err = some e ∧ (Call w rq).opened.getLast? = some name ∧
      w.OpenFile name = some e ∧ (rq.Conf.HeadOutput = true ∨ rq.Conf.BodyOutput = true) ∧
      ∃ c req resp, (Call w rq).client = some c ∧ (Call w rq).sent = some req ∧
        w.Do c req = .ok resp ∧ (Call w rq).res.Status = resp.Status ∧
        (Call w rq).res.ReqTime = w.since)) ∧
    (∀ e, w.urlParse rq.Conf.URL = .error e →
      (Call w rq).res.Err = some e ∧ (Call w rq).res.Status = [] ∧
      (Call w rq).res.ReqTime = 0 ∧ (Call w rq).opened = []) ∧
    (∀ u e, w.urlParse rq.Conf.URL = .ok u →
      w.urlParse (Replace rq.Conf.URL u.Host (Call.ip rq u.Host) 1) = .error e →
      (Call w rq).res.Err.isSome = true ∧ (Call w rq).res.Status = [] ∧
      (Call w rq).res.ReqTime = 0 ∧ (Call w rq).opened = []) ∧
    (∀ u req e, w.urlParse rq.Conf.URL = .ok u →
      NewRequest w "GET".toList (Replace rq.Conf.URL u.Host (Call.ip rq u.Host) 1) = .ok req →
      w.Do (Call.client u.Host) (Call.setHeaders rq u.Host req) = .error e →
      (Call w rq).res.Err.isSome = true ∧ (Call w rq).res.Status = [] ∧
      (Call w rq).res.ReqTime = 0 ∧ (Call w rq).opened = []) ∧
    (∀ u req resp, w.urlParse rq.Conf.URL = .ok u →
      NewRequest w "GET".toList (Replace rq.Conf.URL u.Host (Call.ip rq u.Host) 1) = .ok req →
      w.Do (Call.client u.Host) (Call.setHeaders rq u.Host req) = .ok resp →
      (Call w rq).res.Status = resp.Status ∧ (Call w rq).res.ReqTime = w.since ∧
      ∃ key, (rq.Conf.HeadOutput = true →
          key = ReplaceAll (Call.ip rq u.Host) ":".toList ".".toList) ∧
        (Call w rq).opened =
          (if rq.Conf.HeadOutput = true then [headerName (Call.ip rq u.Host)] else []) ++
          (if rq.Conf.BodyOutput = true ∧
              (rq.Conf.HeadOutput = true → w.OpenFile (headerName (Call.ip rq u.Host)) = none)
            then [bodyName key] else []) ∧
        (rq.Conf.HeadOutput = true → ∀ e, w.OpenFile (headerName (Call.ip rq u.Host)) = some e →
          (Call w rq).res.Err = some e) ∧
        (rq.Conf.BodyOutput = true →
          (rq.Conf.HeadOutput = true → w.OpenFile (headerName (Call.ip rq u.Host)) = none) →
          (Call w rq).res.Err = w.OpenFile (bodyName key)) ∧
        (rq.Conf.BodyOutput = false →
          (rq.Conf.HeadOutput = true → w.OpenFile (headerName (Call.ip rq u.Host)) = none) →
          (Call w rq).res.Err = none)) := by
  refine ⟨Call_three_shapes w rq, ?_, ?_, ?_, ?_⟩
  · intro e hp
    rw [Call_parse_error w rq e hp]
    exact ⟨rfl, rfl, rfl, rfl⟩
  · intro u e hp hn
    rw [Call_build_error w rq u e hp hn]
    exact ⟨rfl, rfl, rfl, rfl⟩
  · intro u req e hp hn hd
    rw [Call_transport_error w rq u req e hp hn hd]
    exact ⟨rfl, rfl, rfl, rfl⟩
  · intro u req resp hp hn hd
    rw [Call_answered w rq u req resp hp hn hd]
    have hk := output_keeps w rq resp (Call.ip rq u.Host)
      { res := { IP := Call.ip rq u.Host, Status := resp.Status, ReqTime := w.since,
                 Err := none },
        client := some (Call.client u.Host),
        newrequrl := some (Replace rq.Conf.URL u.Host (Call.ip rq u.Host) 1),
        sent := some (Call.setHeaders rq u.Host req), opened := [], written := [] }
    have hx := output_exact w rq resp (Call.ip rq u.Host)
      { res := { IP := Call.ip rq u.Host, Status := resp.Status, ReqTime := w.since,
                 Err := none },
        client := some (Call.client u.Host),
        newrequrl := some (Replace rq.Conf.URL u.Host (Call.ip rq u.Host) 1),
        sent := some (Call.setHeaders rq u.Host req), opened := [], written := [] }
      rfl rfl
    refine ⟨hk.2.2.2.2.1, hk.2.2.2.2.2,
      (if rq.Conf.HeadOutput = true then ReplaceAll (Call.ip rq u.Host) ":".toList ".".toList
        else Call.ip rq u.Host), ?_, hx.1, hx.2.1, hx.2.2.1, hx.2.2.2⟩
    intro hh
    rw [if_pos hh]

/-- C3, as amended, at a request with body capture that is answered `200 OK`
while the file system refuses every `os.OpenFile`: the result carries the
error of the body file and the status of the answer. -/
theorem Call_result_shape_witness :
    (answeringWorld ok200 1000000 (fun _ => some "permission denied".toList)).urlParse
        "http://example.com/".toList
      = .ok { URL.zero with Scheme := "http".toList, Host := "example.com".toList,
                            Path := "/".toList } ∧
    NewRequest (answeringWorld ok200 1000000 (fun _ => some "permission denied".toList))
        "GET".toList "http://10.0.0.1/".toList
      = .ok { Method := "GET".toList, URL := "http://10.0.0.1/".toList,
              Host := "10.0.0.1".toList, Header := [] } ∧
    (Call (answeringWorld ok200 1000000 (fun _ => some "permission denied".toList))
      { IP := "10.0.0.1".toList,
        Conf := { Config.zero with URL := "http://example.com/".toList,
                                   BodyOutput := true } }).res.Err
      = some "permission denied".toList ∧
    (Call (answeringWorld ok200 1000000 (fun _ => some "permission denied".toList))
      { IP := "10.0.0.1".toList,
        Conf := { Config.zero with URL := "http://example.com/".toList,
                                   BodyOutput := true } }).res.Status
      = "200 OK".toList := by
  refine ⟨by decide, by decide, ?_, ?_⟩
  · obtain ⟨_, _, key, _, _, _, hB, _⟩ :=
      (Call_result_shape (answeringWorld ok200 1000000 (fun _ => some "permission denied".toList))
        { IP := "10.0.0.1".toList,
          Conf := { Config.zero with URL := "http://example.com/".toList,
                                     BodyOutput := true } }).2.2.2.2
        { URL.zero with Scheme := "http".toList, Host := "example.com".toList,
                        Path := "/".toList }
        { Method := "GET".toList, URL := "http://10.0.0.1/".toList,
          Host := "10.0.0.1".toList, Header := [] }
        ok200 (by decide) (by decide) rfl
    rw [hB rfl (by decide)]
    rfl
  · exact ((Call_result_shape
        (answeringWorld ok200 1000000 (fun _ => some "permission denied".toList))
        { IP := "10.0.0.1".toList,
          Conf := { Config.zero with URL := "http://example.com/".toList,
                                     BodyOutput := true } }).2.2.2.2
        { URL.zero with Scheme := "http".toList, Host := "example.com".toList,
                        Path := "/".toList }
        { Method := "GET".toList, URL := "http://10.0.0.1/".toList,
          Host := "10.0.0.1".toList, Header := [] }
        ok200 (by decide) (by decide) rfl).1

/-- C3, as stated, fails: with header capture on, a server answering `200 OK`
after one millisecond and a file system that refuses every `os.OpenFile`, the
result has the error set and also a status and a request time: it is neither
without error nor without status and time. -/
theorem Call_open_failure_keeps_status_counterexample :
    (Call (answeringWorld ok200 1000000 (fun _ => some "permission denied".toList))
      { IP := "93.184.216.34".toList,
        Conf := { Config.zero with URL := "http://example.com/".toList, HeadOutput := true } }).res
      = { IP := "93.184.216.34".toList, Status := "200 OK".toList, ReqTime := 1000000,
          Err := some "permission denied".toList } ∧
    ¬ ((Call (answeringWorld ok200 1000000 (fun _ => some "permission denied".toList))
      { IP := "93.184.216.34".toList,
        Conf := { Config.zero with URL := "http://example.com/".toList,
                                   HeadOutput := true } }).res.Err = none) ∧
    ¬ ((Call (answeringWorld ok200 1000000 (fun _ => some "permission denied".toList))
      { IP := "93.184.216.34".toList,
        Conf := { Config.zero with URL := "http://example.com/".toList,
                                   HeadOutput := true } }).res.Status = [] ∧
       (Call (answeringWorld ok200 1000000 (fun _ => some "permission denied".toList))
      { IP := "93.184.216.34".toList,
        Conf := { Config.zero with URL := "http://example.com/".toList,
                                   HeadOutput := true } }).res.ReqTime = 0) := by
  decide

/-! ## C5: the names of the artifact files -/

/-- C5 fails on the code: with body capture on and header capture off, the
target `127.0.0.1:8080` makes `Call` open a body file whose name holds the
colon of the target.  With header capture on as well both names have the colon
replaced, and so have the two names that `RequestIP` opens for the same URL
and target. -/
theorem Call_body_name_keeps_colon :
    (Call (answeringWorld ok200 1000000 (fun _ => none))
      { IP := "127.0.0.1:8080".toList,
        Conf := { Config.zero with URL := "http://example.com/".toList, BodyOutput := true } }).opened
      = ["result/127.0.0.1:8080_body.txt".toList] ∧
    ':' ∈ "result/127.0.0.1:8080_body.txt".toList ∧
    (Call (answeringWorld ok200 1000000 (fun _ => none))
      { IP := "127.0.0.1:8080".toList,
        Conf := { Config.zero with URL := "http://example.com/".toList, HeadOutput := true,
                                   BodyOutput := true } }).opened
      = ["result/127.0.0.1.8080_header.txt".toList, "result/127.0.0.1.8080_body.txt".toList] ∧
    (RequestIP (answeringWorld ok200 1000000 (fun _ => none))
        "http://example.com/".toList "127.0.0.1:8080".toList).opened
      = ["result/127.0.0.1.8080_header.txt".toList, "result/127.0.0.1.8080_body.txt".toList] := by
  decide

/-! ## C1: the substituted URL -/

/-- C1, as amended: when the base URL parses and the IP of the target is not
empty, the URL handed to `http.NewRequest` is the base URL with the first
occurrence of the host text, wherever it stands, replaced by the IP.  For
every way of writing the base URL as `pre ++ host ++ suf` with no occurrence of
the host beginning inside `pre`, it is `pre ++ IP ++ suf`; such a way exists as
soon as the host occurs in the base URL; and when the host does not occur in
the base URL, it is the base URL itself. -/
theorem Call_newrequrl_first_occurrence (w : World) (rq : Request) (u : URL)
    (h : w.urlParse rq.Conf.URL = .ok u) (hip : rq.IP ≠ []) :
    (∀ pre suf, rq.Conf.URL = pre ++ u.Host ++ suf →
      (∀ i < pre.length, ¬ u.Host <+: rq.Conf.URL.drop i) →
      (Call w rq).newrequrl = some (pre ++ rq.IP ++ suf)) ∧
    (u.Host <:+: rq.Conf.URL →
      ∃ pre suf, rq.Conf.URL = pre ++ u.Host ++ suf ∧
        ∀ i < pre.length, ¬ u.Host <+: rq.Conf.URL.drop i) ∧
    (¬ u.Host <:+: rq.Conf.URL → (Call w rq).newrequrl = some rq.Conf.URL) := by
  have h1 := (Call_of_parse_ok w rq u h).2.1
  have hi : Call.ip rq u.Host = rq.IP := by simp [Call.ip, hip]
  rw [hi, Replace_one] at h1
  refine ⟨?_, ?_, ?_⟩
  · intro pre suf hsplit hmin
    rw [hsplit] at hmin
    have hidx := Index_of_split hmin
    rw [h1, hsplit, hidx]
    simp
  · intro hin
    rcases hidx : Index rq.Conf.URL u.Host with _ | j
    · exact absurd hin ((Index_eq_none_iff _ _).mp hidx)
    · refine ⟨rq.Conf.URL.take j, rq.Conf.URL.drop (j + u.Host.length), Index_split hidx, ?_⟩
      intro i hi2
      have hj := (Index_some hidx).2.1
      rw [List.length_take, Nat.min_eq_left hj] at hi2
      exact (Index_some hidx).2.2 i hi2
  · intro hnot
    rw [h1, (Index_eq_none_iff _ _).mpr hnot]

/-- C1, as amended, at `http://example.com/x?y=1` with the IP `1.2.3.4`. -/
theorem Call_newrequrl_first_occurrence_witness :
    (answeringWorld ok200 1000000 (fun _ => none)).urlParse "http://example.com/x?y=1".toList
      = .ok { URL.zero with Scheme := "http".toList, Host := "example.com".toList,
                            Path := "/x".toList, RawQuery := "y=1".toList } ∧
    "1.2.3.4".toList ≠ [] ∧
    (Call (answeringWorld ok200 1000000 (fun _ => none))
      { IP := "1.2.3.4".toList,
        Conf := { Config.zero with URL := "http://example.com/x?y=1".toList } }).newrequrl
      = some "http://1.2.3.4/x?y=1".toList :=
  ⟨by decide, by decide,
   (Call_newrequrl_first_occurrence (answeringWorld ok200 1000000 (fun _ => none))
      { IP := "1.2.3.4".toList,
        Conf := { Config.zero with URL := "http://example.com/x?y=1".toList } }
      { URL.zero with Scheme := "http".toList, Host := "example.com".toList,
                      Path := "/x".toList, RawQuery := "y=1".toList }
      (by decide) (by decide)).1 "http://".toList "/x?y=1".toList (by decide) (by decide)⟩

/-- C1, as stated, fails: the base URL `http://h/` parses with the host `h`, and
with the IP `1.2.3.4` the URL handed to `http.NewRequest` is `1.2.3.4ttp://h/`
(the first `h` is that of the scheme), not `http://1.2.3.4/`; it does not
parse, so it has no host component, and no request is sent. -/
theorem Call_newrequrl_scheme_hit_counterexample :
    urlParse "http://h/".toList
      = .ok { URL.zero with Scheme := "http".toList, Host := "h".toList, Path := "/".toList } ∧
    (Call (answeringWorld ok200 1000000 (fun _ => none))
      { IP := "1.2.3.4".toList, Conf := { Config.zero with URL := "http://h/".toList } }).newrequrl
      = some "1.2.3.4ttp://h/".toList ∧
    "1.2.3.4ttp://h/".toList ≠ "http://1.2.3.4/".toList ∧
    urlParse "1.2.3.4ttp://h/".toList
      = .error "parse: first path segment in URL cannot contain colon".toList ∧
    (Call (answeringWorld ok200 1000000 (fun _ => none))
      { IP := "1.2.3.4".toList, Conf := { Config.zero with URL := "http://h/".toList } }).sent
      = none := by
  decide

/-! ## C4: the failure message -/

/-- A substituted URL that differs from the base URL is not empty. -/
theorem newrequrl_ne_nil (rq : Request) (host : GoString)
    (hne : Replace rq.Conf.URL host (Call.ip rq host) 1 ≠ rq.Conf.URL) :
    Replace rq.Conf.URL host (Call.ip rq host) 1 ≠ [] := by
  intro hnil
  rw [Replace_one] at hnil hne
  rcases hidx : Index rq.Conf.URL host with _ | j
  · rw [hidx] at hne
    exact hne rfl
  · rw [hidx] at hnil
    simp only [List.append_eq_nil] at hnil
    have hipnil : Call.ip rq host = [] := hnil.1.2
    have hhost : host = [] := by
      unfold Call.ip at hipnil
      split_ifs at hipnil with hq
      · exact hipnil
      · exact absurd hipnil hq
    rw [hidx, hipnil] at hne
    apply hne
    have := Index_split hidx
    rw [hhost] at this ⊢
    exact this.symm

/-- C4, as amended: when the base URL parses and the substituted URL differs
from it, a failure of the request construction or of the transport with the
text `e` leaves in the result the text `e` with the occurrences of the
substituted URL, found from left to right, replaced by the base URL: `e`
itself when the substituted URL does not occur in it; and when `e` is
`a ++ substituted ++ b` with no occurrence beginning inside `a`, the text
`a ++ base ++ (b treated likewise)`, which contains the base URL. -/
theorem Call_failure_message (w : World) (rq : Request) (u : URL) (e : GoString)
    (h : w.urlParse rq.Conf.URL = .ok u)
    (hne : Replace rq.Conf.URL u.Host (Call.ip rq u.Host) 1 ≠ rq.Conf.URL) :
    (w.urlParse (Replace rq.Conf.URL u.Host (Call.ip rq u.Host) 1) = .error e →
      (Call w rq).res.Err =
        some (ReplaceAll e (Replace rq.Conf.URL u.Host (Call.ip rq u.Host) 1) rq.Conf.URL)) ∧
    ((∃ req, (Call w rq).sent = some req ∧ w.Do (Call.client u.Host) req = .error e) →
      (Call w rq).res.Err =
        some (ReplaceAll e (Replace rq.Conf.URL u.Host (Call.ip rq u.Host) 1) rq.Conf.URL)) ∧
    (¬ Replace rq.Conf.URL u.Host (Call.ip rq u.Host) 1 <:+: e →
      ReplaceAll e (Replace rq.Conf.URL u.Host (Call.ip rq u.Host) 1) rq.Conf.URL = e) ∧
    (∀ a b, e = a ++ Replace rq.Conf.URL u.Host (Call.ip rq u.Host) 1 ++ b →
      (∀ i < a.length, ¬ Replace rq.Conf.URL u.Host (Call.ip rq u.Host) 1 <+: e.drop i) →
      ReplaceAll e (Replace rq.Conf.URL u.Host (Call.ip rq u.Host) 1) rq.Conf.URL =
        a ++ rq.Conf.URL ++
          ReplaceAll b (Replace rq.Conf.URL u.Host (Call.ip rq u.Host) 1) rq.Conf.URL) ∧
    (Replace rq.Conf.URL u.Host (Call.ip rq u.Host) 1 <:+: e →
      rq.Conf.URL <:+:
        ReplaceAll e (Replace rq.Conf.URL u.Host (Call.ip rq u.Host) 1) rq.Conf.URL) := by
  have hnil := newrequrl_ne_nil rq u.Host hne
  refine ⟨?_, ?_, ?_, ?_, ?_⟩
  · intro hbuild
    refine Call_cases w rq
      (fun t => t.res.Err =
        some (ReplaceAll e (Replace rq.Conf.URL u.Host (Call.ip rq u.Host) 1) rq.Conf.URL))
      ?_ ?_ ?_ ?_
    · intro e2 he2
      rw [h] at he2
      simp at he2
    · intro v e2 hv he2
      rw [h] at hv
      simp only [Except.ok.injEq] at hv
      subst hv
      rw [hbuild] at he2
      simp only [Except.error.injEq] at he2
      rw [he2]
    · intro v req e2 hv hn _
      rw [h] at hv
      simp only [Except.ok.injEq] at hv
      subst hv
      obtain ⟨⟨v2, hv2⟩, _⟩ := NewRequest_ok w _ _ req hn
      rw [hbuild] at hv2
      simp at hv2
    · intro v req resp hv hn _
      rw [h] at hv
      simp only [Except.ok.injEq] at hv
      subst hv
      obtain ⟨⟨v2, hv2⟩, _⟩ := NewRequest_ok w _ _ req hn
      rw [hbuild] at hv2
      simp at hv2
  · refine Call_cases w rq
      (fun t => (∃ req, t.sent = some req ∧ w.Do (Call.client u.Host) req = .error e) →
        t.res.Err =
          some (ReplaceAll e (Replace rq.Conf.URL u.Host (Call.ip rq u.Host) 1) rq.Conf.URL))
      ?_ ?_ ?_ ?_
    · rintro e2 _ ⟨req, hreq, _⟩
      simp at hreq
    · rintro v e2 _ _ ⟨req, hreq, _⟩
      simp at hreq
    · rintro v req e2 hv _ hd ⟨r, hr, hdo⟩
      rw [h] at hv
      simp only [Except.ok.injEq] at hv
      subst hv
      simp only [Option.some.injEq] at hr
      subst hr
      rw [hd] at hdo
      simp only [Except.error.injEq] at hdo
      rw [hdo]
    · rintro v req resp hv _ hd ⟨r, hr, hdo⟩
      rw [h] at hv
      simp only [Except.ok.injEq] at hv
      subst hv
      rw [(output_keeps w rq resp _ _).2.2.1] at hr
      simp only [Option.some.injEq] at hr
      subst hr
      rw [hd] at hdo
      simp at hdo
  · intro hnot
    exact ReplaceAll_of_not_infix _ _ _ hnot
  · intro a b hsplit hmin
    rw [hsplit] at hmin
    have hidx := Index_of_split hmin
    rw [hsplit, ReplaceAll_of_Index _ _ _ hnil hidx]
    simp
  · intro hin
    rcases hidx : Index e (Replace rq.Conf.URL u.Host (Call.ip rq u.Host) 1) with _ | j
    · exact absurd hin ((Index_eq_none_iff _ _).mp hidx)
    · rw [ReplaceAll_of_Index _ _ _ hnil hidx]
      exact ⟨_, _, rfl⟩

/-- C4, as amended, at `http://example.com/` with the IP `10.0.0.1` and a
transport that fails with `Get "http://10.0.0.1/": context deadline exceeded`. -/
theorem Call_failure_message_witness :
    (failingWorld "Get \"http://10.0.0.1/\": context deadline exceeded".toList).urlParse
        "http://example.com/".toList
      = .ok { URL.zero with Scheme := "http".toList, Host := "example.com".toList,
                            Path := "/".toList } ∧
    (Call (failingWorld "Get \"http://10.0.0.1/\": context deadline exceeded".toList)
      { IP := "10.0.0.1".toList,
        Conf := { Config.zero with URL := "http://example.com/".toList } }).res.Err
      = some "Get \"http://example.com/\": context deadline exceeded".toList :=
  ⟨by decide,
   ((Call_failure_message (failingWorld "Get \"http://10.0.0.1/\": context deadline exceeded".toList)
      { IP := "10.0.0.1".toList,
        Conf := { Config.zero with URL := "http://example.com/".toList } }
      { URL.zero with Scheme := "http".toList, Host := "example.com".toList,
                      Path := "/".toList }
      "Get \"http://10.0.0.1/\": context deadline exceeded".toList
      (by decide) (by decide)).2.1
      ⟨{ Method := "GET".toList, URL := "http://10.0.0.1/".toList,
         Host := "example.com".toList,
         Header := [("User-Agent".toList, defaultUserAgent)] }, by decide, rfl⟩).trans
    (by decide)⟩

/-- C4, as stated, fails: with the base URL `http://10.0.0.12` and the IP
`10.0.0.1` the substituted URL is `http://10.0.0.1`, which differs from the
base URL; the transport error that names it becomes a message that names the
base URL, and the substituted URL is still a part of that message. -/
theorem Call_failure_message_keeps_substituted_counterexample :
    (Call (failingWorld
        "Get \"http://10.0.0.1\": dial tcp 10.0.0.1:80: connect: connection refused".toList)
      { IP := "10.0.0.1".toList,
        Conf := { Config.zero with URL := "http://10.0.0.12".toList } }).newrequrl
      = some "http://10.0.0.1".toList ∧
    (Call (failingWorld
        "Get \"http://10.0.0.1\": dial tcp 10.0.0.1:80: connect: connection refused".toList)
      { IP := "10.0.0.1".toList,
        Conf := { Config.zero with URL := "http://10.0.0.12".toList } }).res.Err
      = some "Get \"http://10.0.0.12\": dial tcp 10.0.0.1:80: connect: connection refused".toList ∧
    "http://10.0.0.1".toList <:+:
      "Get \"http://10.0.0.12\": dial tcp 10.0.0.1:80: connect: connection refused".toList :=
  ⟨by decide, by decide,
   ⟨"Get \"".toList, "2\": dial tcp 10.0.0.1:80: connect: connection refused".toList, by decide⟩⟩

/-! ## `ParseRequestConf` -/

/-- A line with a key of two characters or more begins with the first two
characters of the key. -/
theorem take_two_of_HasPrefix {text key : GoString} (h : HasPrefix text key = true)
    (hk : 2 ≤ key.length) : text.take 2 = key.take 2 := by
  unfold HasPrefix at h
  rw [List.isPrefixOf_iff_prefix] at h
  obtain ⟨t, rfl⟩ := h
  exact List.take_append_of_le_length hk

/-- No line starts with two option keys. -/
theorem HasPrefix_disjoint (text k1 k2 : GoString) (h1 : HasPrefix text k1 = true)
    (hk1 : 2 ≤ k1.length) (hk2 : 2 ≤ k2.length) (hne : k1.take 2 ≠ k2.take 2) :
    HasPrefix text k2 = false := by
  rcases h2 : HasPrefix text k2 with _ | _
  · rfl
  · exact absurd ((take_two_of_HasPrefix h1 hk1).symm.trans (take_two_of_HasPrefix h2 hk2)) hne

theorem isOptionLine_iff (text : GoString) :
    isOptionLine text = true ↔
      (HasPrefix text "url:".toList = true ∨ HasPrefix text "user-agent:".toList = true ∨
       HasPrefix text "header-output:".toList = true ∨ HasPrefix text "body-output:".toList = true ∨
       HasPrefix text "cookie:".toList = true) := by
  simp [isOptionLine, optionKeys]

/-- One line of the loop: an option line leaves the IPs as they are, any other
line appends its trimmed text. -/
theorem parseLine_fst (st : List GoString × Config) (text : GoString) :
    (parseLine st text).1 =
      if isOptionLine text = true then st.1 else st.1 ++ [TrimSpace text] := by
  rcases st with ⟨ips, conf⟩
  unfold parseLine
  dsimp only
  have hiff := isOptionLine_iff text
  split_ifs with h1 h2 h3 h4 h5 h6 h6 h6 h6 h6 h6 <;> first
    | rfl
    | (exfalso; simp_all)

theorem foldl_parseLine_fst (lines : List GoString) (st : List GoString × Config) :
    (lines.foldl parseLine st).1 =
      st.1 ++ (lines.filter (fun l => !isOptionLine l)).map TrimSpace := by
  induction lines generalizing st with
  | nil => simp
  | cons l rest ih =>
    rw [List.foldl_cons, ih, parseLine_fst]
    by_cases h : isOptionLine l = true
    · simp [h]
    · simp [h]

theorem lastValue_append (key : GoString) (lines : List GoString) (l : GoString) :
    lastValue key (lines ++ [l]) =
      if HasPrefix l key = true then some (l.drop key.length) else lastValue key lines := by
  unfold lastValue
  rw [List.reverse_append]
  simp only [List.reverse_cons, List.reverse_nil, List.nil_append, List.singleton_append,
    List.find?_cons]
  split <;> simp_all

/-- The configuration after the loop holds, for every key, the value of the last
line with that key. -/
theorem foldl_parseLine_snd (lines : List GoString) (ips : List GoString) :
    (lines.foldl parseLine (ips, Config.zero)).2 = optionsOf lines := by
  induction lines using List.reverseRecOn with
  | nil =>
    show Config.zero = optionsOf []
    decide
  | append_singleton init l ih =>
    rw [List.foldl_append, List.foldl_cons, List.foldl_nil]
    rcases hst : init.foldl parseLine (ips, Config.zero) with ⟨ips2, conf⟩
    rw [hst] at ih
    dsimp only at ih
    unfold optionsOf
    simp only [lastValue_append]
    unfold parseLine
    dsimp only
    have d := HasPrefix_disjoint l
    by_cases h1 : HasPrefix l "url:".toList = true
    · have h2 := d _ "user-agent:".toList h1 (by decide) (by decide) (by decide)
      have h3 := d _ "header-output:".toList h1 (by decide) (by decide) (by decide)
      have h4 := d _ "body-output:".toList h1 (by decide) (by decide) (by decide)
      have h5 := d _ "cookie:".toList h1 (by decide) (by decide) (by decide)
      simp only [h1, h2, h3, h4, h5, if_true, Bool.false_eq_true, if_false]
      rw [ih]
      simp [optionsOf]
    · by_cases h2 : HasPrefix l "user-agent:".toList = true
      · have h3 := d _ "header-output:".toList h2 (by decide) (by decide) (by decide)
        have h4 := d _ "body-output:".toList h2 (by decide) (by decide) (by decide)
        have h5 := d _ "cookie:".toList h2 (by decide) (by decide) (by decide)
        simp only [h1, h2, h3, h4, h5, if_true, Bool.false_eq_true, if_false]
        rw [ih]
        simp [optionsOf]
      · by_cases h3 : HasPrefix l "header-output:".toList = true
        · have h4 := d _ "body-output:".toList h3 (by decide) (by decide) (by decide)
          have h5 := d _ "cookie:".toList h3 (by decide) (by decide) (by decide)
          simp only [h1, h2, h3, h4, h5, if_true, Bool.false_eq_true, if_false]
          rw [ih]
          simp [optionsOf]
        · by_cases h4 : HasPrefix l "body-output:".toList = true
          · have h5 := d _ "cookie:".toList h4 (by decide) (by decide) (by decide)
            simp only [h1, h2, h3, h4, h5, if_true, Bool.false_eq_true, if_false]
            rw [ih]
            simp [optionsOf]
          · by_cases h5 : HasPrefix l "cookie:".toList = true
            · simp only [h1, h2, h3, h4, h5, if_true, Bool.false_eq_true, if_false]
              rw [ih]
              simp [optionsOf]
            · simp only [h1, h2, h3, h4, h5, if_true, Bool.false_eq_true, if_false]
              rw [ih]
              rfl

/-- The requests of `parseLines`: their IPs are the trimmed lines that are not
option lines, or the single empty IP when there is no such line; their
configuration is the one all the lines leave. -/
theorem parseLines_eq (lines : List GoString) :
    parseLines lines =
      (if (lines.filter (fun l => !isOptionLine l)) = [] then [[]]
        else (lines.filter (fun l => !isOptionLine l)).map TrimSpace).map
        (fun ip => { IP := ip, Conf := optionsOf lines }) := by
  unfold parseLines
  have h1 := foldl_parseLine_fst lines ([], Config.zero)
  have h2 := foldl_parseLine_snd lines []
  rcases hst : lines.foldl parseLine ([], Config.zero) with ⟨ips, conf⟩
  rw [hst] at h1 h2
  dsimp only at h1 h2 ⊢
  rw [List.nil_append] at h1
  subst h1 h2
  by_cases hf : lines.filter (fun l => !isOptionLine l) = []
  · simp [hf]
  · have : ((lines.filter (fun l => !isOptionLine l)).map TrimSpace).length ≠ 0 := by
      simpa using hf
    simp [hf]

/-- C8, as amended: the IPs of the targets returned by `ParseRequestConf` are,
in order, the trimmed texts of the lines that do not start with an option key,
the empty lines among them (an empty line gives a target with an empty IP);
when no line qualifies, the single target with the empty IP is returned. -/
theorem ParseRequestConf_targets (lines : List GoString) (scanErr : Option GoString) :
    (ParseRequestConf (.ok (lines, scanErr))).1.map (fun rq => rq.IP) =
      if lines.filter (fun l => !isOptionLine l) = [] then [[]]
      else (lines.filter (fun l => !isOptionLine l)).map TrimSpace := by
  show (parseLines lines).map (fun rq => rq.IP) = _
  rw [parseLines_eq, List.map_map]
  exact List.map_id _

/-- C8, as stated, fails: for the lines `url:http://a/`, the empty line and
`1.2.3.4` the claim gives the single target `1.2.3.4` (the non-empty lines
without option key), and `ParseRequestConf` returns two targets, the first of
them with the empty IP of the empty line. -/
theorem ParseRequestConf_empty_line_counterexample :
    (ParseRequestConf (.ok (["url:http://a/".toList, [], "1.2.3.4".toList], none))).1.map
        (fun rq => rq.IP)
      = [[], "1.2.3.4".toList] ∧
    (["url:http://a/".toList, [], "1.2.3.4".toList].filter
        (fun l => !l.isEmpty && !isOptionLine l)).map TrimSpace
      = ["1.2.3.4".toList] ∧
    (ParseRequestConf (.ok (["url:http://a/".toList, [], "1.2.3.4".toList], none))).1.map
        (fun rq => rq.IP)
      ≠ (["url:http://a/".toList, [], "1.2.3.4".toList].filter
        (fun l => !l.isEmpty && !isOptionLine l)).map TrimSpace := by
  decide

/-- C9: when every line starts with an option key (or there is no line),
`ParseRequestConf` returns exactly one target, with the empty IP and with the
options the lines set (for every key the value of its last line); and whatever
the lines are, the list returned for a file that could be opened is not
empty. -/
theorem ParseRequestConf_baseline (lines : List GoString) (scanErr : Option GoString)
    (h : ∀ l ∈ lines, isOptionLine l = true) :
    (ParseRequestConf (.ok (lines, scanErr))).1 = [{ IP := [], Conf := optionsOf lines }] ∧
    (ParseRequestConf (.ok (lines, scanErr))).2 = scanErr ∧
    ∀ (anyLines : List GoString) (anyErr : Option GoString),
      (ParseRequestConf (.ok (anyLines, anyErr))).1 ≠ [] := by
  refine ⟨?_, rfl, ?_⟩
  · show parseLines lines = _
    rw [parseLines_eq]
    have : lines.filter (fun l => !isOptionLine l) = [] := by
      rw [List.filter_eq_nil_iff]
      intro l hl
      simp [h l hl]
    simp [this]
  · intro anyLines anyErr
    show parseLines anyLines ≠ []
    rw [parseLines_eq]
    by_cases hf : anyLines.filter (fun l => !isOptionLine l) = []
    · simp [hf]
    · simp [hf]

/-- C9 at the two lines `url:http://example.com/` and `header-output:1`. -/
theorem ParseRequestConf_baseline_witness :
    (∀ l ∈ ["url:http://example.com/".toList, "header-output:1".toList], isOptionLine l = true) ∧
    (ParseRequestConf (.ok (["url:http://example.com/".toList, "header-output:1".toList], none))).1
      = [{ IP := [],
           Conf := { Config.zero with URL := "http://example.com/".toList, HeadOutput := true } }] :=
  ⟨by decide,
   (ParseRequestConf_baseline ["url:http://example.com/".toList, "header-output:1".toList] none
      (by decide)).1.trans (by decide)⟩

/-! ## The dispatcher loop -/

theorem getElem?_split {α : Type} (l : List α) (k : Nat) (r : α) (h : l[k]? = some r) :
    l = l.take k ++ r :: l.drop (k + 1) := by
  induction l generalizing k with
  | nil => simp at h
  | cons a t ih =>
    rcases k with _ | k
    · simp at h
      simp [h]
    · simp only [List.getElem?_cons_succ] at h
      simp only [List.take_succ_cons, List.drop_succ_cons, List.cons_append, List.cons.injEq,
        true_and]
      exact ih k h

theorem Inv_length {call : Nat × Request → Result} {reqs : List Request} {s : Dispatch}
    (h : main.Inv call reqs s) :
    s.printed.length + s.out.length + s.running.length + s.todo.length = reqs.length := by
  have := h.2.2.2.length_eq
  simp only [List.length_append, List.length_map, List.enum_length] at this
  omega

theorem Inv_init (call : Nat × Request → Result) (reqs : List Request) :
    main.Inv call reqs (main.init reqs) := by
  refine ⟨rfl, rfl, rfl, ?_⟩
  simp [main.init]

theorem Inv_step {call : Nat × Request → Result} {reqs : List Request} {s s2 : Dispatch}
    {a : Action} (h : main.Inv call reqs s) (hs : main.step call s a = some s2) :
    main.Inv call reqs s2 ∧ main.stepsLeft s2 + 1 = main.stepsLeft s := by
  obtain ⟨hn, hc, hi, hp⟩ := h
  rcases a with _ | k | _
  · -- spawn
    simp only [main.step] at hs
    rcases htodo : s.todo with _ | ⟨r, rest⟩
    · rw [htodo] at hs
      simp at hs
    · rw [htodo] at hs
      simp only [Option.some.injEq] at hs
      subst hs
      refine ⟨⟨hn, hc, hi, ?_⟩, ?_⟩
      · rw [htodo] at hp
        simpa [List.append_assoc] using hp
      · simp [main.stepsLeft, htodo]
        omega
  · -- send
    simp only [main.step] at hs
    rcases hr : s.running[k]? with _ | r
    · rw [hr] at hs
      simp at hs
    · rw [hr] at hs
      dsimp only at hs
      split_ifs at hs with hfull
      simp only [Option.some.injEq] at hs
      subst hs
      obtain ⟨A, B, hAB, hA, hB⟩ : ∃ A B, s.running = A ++ r :: B ∧ s.running.take k = A ∧
          s.running.drop (k + 1) = B := ⟨_, _, getElem?_split s.running k r hr, rfl, rfl⟩
      rw [hAB] at hp
      refine ⟨⟨hn, hc, hi, ?_⟩, ?_⟩
      · dsimp only
        rw [hA, hB]
        refine List.Perm.trans ?_ hp
        simp only [List.map_append, List.map_cons, List.append_assoc]
        apply List.Perm.append_left
        apply List.Perm.append_left
        simp only [List.singleton_append, List.cons_append, List.nil_append]
        exact List.perm_middle.symm
      · simp only [main.stepsLeft]
        rw [hA, hB, hAB]
        simp only [List.length_append, List.length_cons, List.length_nil]
        omega
  · -- recv
    simp only [main.step] at hs
    split_ifs at hs with hcond
    rcases hout : s.out with _ | ⟨res, rest⟩
    · rw [hout] at hs
      simp at hs
    · rw [hout] at hs
      simp only [Option.some.injEq] at hs
      subst hs
      refine ⟨⟨hn, hc, by simp [hi], ?_⟩, ?_⟩
      · rw [hout] at hp
        simpa [List.append_assoc] using hp
      · simp [main.stepsLeft, hout]
        omega

theorem run_append (call : Nat × Request → Result) (a b : List Action) (s : Dispatch) :
    main.run call (a ++ b) s = (main.run call a s).bind (main.run call b) := by
  induction a generalizing s with
  | nil => rfl
  | cons x rest ih =>
    simp only [List.cons_append, main.run]
    rcases main.step call s x with _ | s1
    · rfl
    · simp [ih]

theorem Inv_run {call : Nat × Request → Result} {reqs : List Request} (sched : List Action)
    {s s2 : Dispatch} (h : main.Inv call reqs s) (hs : main.run call sched s = some s2) :
    main.Inv call reqs s2 ∧ main.stepsLeft s2 + sched.length = main.stepsLeft s := by
  induction sched generalizing s with
  | nil =>
    simp only [main.run, Option.some.injEq] at hs
    subst hs
    exact ⟨h, rfl⟩
  | cons a rest ih =>
    simp only [main.run] at hs
    rcases h1 : main.step call s a with _ | s1
    · rw [h1] at hs
      simp at hs
    · rw [h1] at hs
      simp only [Option.some_bind] at hs
      obtain ⟨hinv, hm⟩ := Inv_step h h1
      obtain ⟨hinv2, hm2⟩ := ih hinv hs
      refine ⟨hinv2, ?_⟩
      simp only [List.length_cons]
      omega

/-- In a state of the dispatcher the send of a running goroutine does not block. -/
theorem Inv_send {call : Nat × Request → Result} {reqs : List Request} {s : Dispatch}
    (h : main.Inv call reqs s) (k : Nat) (r : Nat × Request) (hr : s.running[k]? = some r) :
    (main.step call s (.send k)).isSome = true := by
  have hlen := Inv_length h
  have hk : k < s.running.length := (List.getElem?_eq_some_iff.mp hr).1
  have : s.out.length < s.cap := by
    rw [h.2.1]
    omega
  simp [main.step, hr, this]

/-- As long as a result is missing, the dispatcher can make a step. -/
theorem Inv_progress {call : Nat × Request → Result} {reqs : List Request} {s : Dispatch}
    (h : main.Inv call reqs s) (hlt : s.printed.length < reqs.length) :
    ∃ a, (main.step call s a).isSome = true := by
  have hlen := Inv_length h
  rcases htodo : s.todo with _ | ⟨r, rest⟩
  · rcases hrun : s.running with _ | ⟨r, rest⟩
    · rcases hout : s.out with _ | ⟨res, rest⟩
      · rw [htodo, hrun, hout] at hlen
        simp at hlen
        omega
      · refine ⟨.recv, ?_⟩
        have hi : s.i < s.n := by
          rw [h.2.2.1, h.1]
          exact hlt
        simp [main.step, htodo, hi, hout]
    · exact ⟨.send 0, Inv_send h 0 r (by simp [hrun])⟩
  · exact ⟨.spawn, by simp [main.step, htodo]⟩

/-- A state of the dispatcher with no step left has printed every result. -/
theorem Inv_done {call : Nat × Request → Result} {reqs : List Request} {s : Dispatch}
    (h : main.Inv call reqs s) (h0 : main.stepsLeft s = 0) :
    s.printed.Perm (reqs.enum.map call) ∧ s.printed.length = reqs.length ∧
    s.i = reqs.length := by
  have hlen := Inv_length h
  unfold main.stepsLeft at h0
  have h1 : s.todo = [] := List.length_eq_zero.mp (by omega)
  have h2 : s.running = [] := List.length_eq_zero.mp (by omega)
  have h3 : s.out = [] := List.length_eq_zero.mp (by omega)
  have hp := h.2.2.2
  rw [h1, h2, h3] at hp hlen
  simp only [List.map_nil, List.append_nil, List.length_nil, Nat.add_zero] at hp hlen
  exact ⟨hp, hlen, by rw [h.2.2.1, hlen]⟩

/-- From every state of the dispatcher a schedule leads to the end. -/
theorem Inv_completes {call : Nat × Request → Result} {reqs : List Request} (m : Nat)
    (s : Dispatch) (h : main.Inv call reqs s) (hm : main.stepsLeft s = m) :
    ∃ sched s2, main.run call sched s = some s2 ∧ main.stepsLeft s2 = 0 := by
  induction m generalizing s with
  | zero => exact ⟨[], s, rfl, hm⟩
  | succ m ih =>
    have hlen := Inv_length h
    have hlt : s.printed.length < reqs.length := by
      unfold main.stepsLeft at hm
      omega
    obtain ⟨a, ha⟩ := Inv_progress h hlt
    rcases h1 : main.step call s a with _ | s1
    · rw [h1] at ha
      simp at ha
    · obtain ⟨hinv, hsl⟩ := Inv_step h h1
      obtain ⟨sched, s2, hrun, hz⟩ := ih s1 hinv (by omega)
      exact ⟨a :: sched, s2, by simp [main.run, h1, hrun], hz⟩

/-- C6: in every state `s` that the dispatcher of `main` reaches for the
requests `reqs` under a schedule `sched`, whatever the calls return: every
request is at exactly one place (printed, in the channel, running, not yet
started); the send of a running goroutine does not block, the channel of
capacity `len(reqs)` having room for it; as long as fewer than `len(reqs)`
results are printed a step is possible; `3 * len(reqs)` minus the steps made
are left, so that every run ends; a state without possible step, and a state
reached after `3 * len(reqs)` steps, has received and printed exactly
`len(reqs)` results, one for each request; and a schedule that leads there
exists. -/
theorem main_dispatch_delivers_every_result (call : Nat × Request → Result)
    (reqs : List Request) (sched : List Action) (s : Dispatch)
    (h : main.run call sched (main.init reqs) = some s) :
    s.printed.length + s.out.length + s.running.length + s.todo.length = reqs.length ∧
    (∀ k r, s.running[k]? = some r → (main.step call s (.send k)).isSome = true) ∧
    (s.printed.length < reqs.length → ∃ a, (main.step call s a).isSome = true) ∧
    main.stepsLeft s + sched.length = 3 * reqs.length ∧
    ((∀ a, main.step call s a = none) →
      s.printed.length = reqs.length ∧ s.i = reqs.length ∧
      s.printed.Perm (reqs.enum.map call)) ∧
    (sched.length = 3 * reqs.length →
      s.printed.length = reqs.length ∧ s.i = reqs.length ∧
      s.printed.Perm (reqs.enum.map call)) ∧
    (∃ more s2, main.run call (sched ++ more) (main.init reqs) = some s2 ∧
      s2.printed.length = reqs.length ∧ s2.printed.Perm (reqs.enum.map call)) := by
  obtain ⟨hinv, hsteps⟩ := Inv_run sched (Inv_init call reqs) h
  have hinit : main.stepsLeft (main.init reqs) = 3 * reqs.length := by
    simp [main.stepsLeft, main.init]
  rw [hinit] at hsteps
  have hlen := Inv_length hinv
  refine ⟨hlen, Inv_send hinv, Inv_progress hinv, hsteps, ?_, ?_, ?_⟩
  · intro hstuck
    have hge : ¬ s.printed.length < reqs.length := by
      intro hlt
      obtain ⟨a, ha⟩ := Inv_progress hinv hlt
      rw [hstuck a] at ha
      simp at ha
    have h0 : main.stepsLeft s = 0 := by
      unfold main.stepsLeft
      omega
    obtain ⟨hp, hl, hi⟩ := Inv_done hinv h0
    exact ⟨hl, hi, hp⟩
  · intro hfull
    obtain ⟨hp, hl, hi⟩ := Inv_done hinv (by omega)
    exact ⟨hl, hi, hp⟩
  · obtain ⟨more, s2, hrun, hz⟩ := Inv_completes _ s hinv rfl
    have hrun2 : main.run call (sched ++ more) (main.init reqs) = some s2 := by
      rw [run_append, h]
      exact hrun
    obtain ⟨hinv2, _⟩ := Inv_run (sched ++ more) (Inv_init call reqs) hrun2
    obtain ⟨hp, hl, _⟩ := Inv_done hinv2 hz
    exact ⟨more, s2, hrun2, hl, hp⟩

/-- C6 at two requests, the second of which fails (its IP is no host), under a
schedule in which the second goroutine sends first. -/
theorem main_dispatch_delivers_every_result_witness :
    main.run twoCalls [.spawn, .spawn, .send 1, .send 0, .recv, .recv] (main.init twoRequests)
      = some twoPrinted ∧
    twoPrinted.printed.length + twoPrinted.out.length + twoPrinted.running.length +
      twoPrinted.todo.length = twoRequests.length ∧
    twoPrinted.printed.Perm (twoRequests.enum.map twoCalls) :=
  ⟨by decide,
   (main_dispatch_delivers_every_result twoCalls twoRequests
      [.spawn, .spawn, .send 1, .send 0, .recv, .recv] twoPrinted (by decide)).1,
   ((main_dispatch_delivers_every_result twoCalls twoRequests
      [.spawn, .spawn, .send 1, .send 0, .recv, .recv] twoPrinted (by decide)).2.2.2.2.2.1
      (by decide)).2.2⟩

end SimpleHttpTester
